import Mathlib

/-!
Shallow embedding of the `sqlb` SQL-statement builder (Go) in Lean 4.

The embedding mirrors the Go sources:
* `types.go`        → the enumerations (`sqlBuilderType`, `selectType`, `previousAddedBuilderAction`, ...)
* `table_metadata.go` → column / table metadata, the SQL-keyword quoting helpers and the
  metadata builder (`TableMetadataBuilder.Build`)
* `use_table.go`    → `TableToUse`, `GenericColumnToUse`, `ScannedRows` and the row correlator
* the main builder file → `SqlBuilder` with the fluent state-machine methods and
  `buildSelect` / `buildInsert`

Go panics are modelled as `Except.error`; Go `nil`-able fields as `Option`; Go maps as
association lists with Go map semantics (`assocGet` / `assocSet`, insertion order kept, later
`set` of an existing key overwrites in place).  Record values (Go `any` rows) and extracted
argument values are abstract type parameters `V` and `A`; Go's reflection-based
`getStructTypeName` becomes an explicit function parameter `V → String`.
-/

namespace Sqlb

/-! ### Generic helpers: Go maps as association lists, Go string-building loops -/

def assocGet {κ β : Type} [DecidableEq κ] (m : List (κ × β)) (k : κ) : Option β :=
  (m.find? (fun p => decide (p.1 = k))).map (·.2)

def assocSet {κ β : Type} [DecidableEq κ] (m : List (κ × β)) (k : κ) (v : β) : List (κ × β) :=
  if m.any (fun p => decide (p.1 = k)) then
    m.map (fun p => if p.1 = k then (k, v) else p)
  else
    m ++ [(k, v)]

/-- `isErr e` is true when the computation aborted (the Go code would have panicked). -/
def isErr {ε α : Type} : Except ε α → Bool
  | .error _ => true
  | .ok _ => false

/-- Go `strings.TrimSpace`: drop leading and trailing whitespace (executable model over the
character list). -/
def trimSpace (s : String) : String :=
  String.mk (((s.data.dropWhile Char.isWhitespace).reverse.dropWhile Char.isWhitespace).reverse)

theorem exceptPure {ε α : Type} (x : α) : (pure x : Except ε α) = Except.ok x := rfl

theorem exceptBindOk {ε α β : Type} (x : α) (f : α → Except ε β) :
    (Except.ok x : Except ε α) >>= f = f x := rfl

theorem exceptBindErr {ε α β : Type} (e : ε) (f : α → Except ε β) :
    (Except.error e : Except ε α) >>= f = Except.error e := rfl

theorem exceptMapOk {ε α β : Type} (x : α) (f : α → β) :
    Except.map f (Except.ok x : Except ε α) = Except.ok (f x) := rfl

theorem exceptMapErr {ε α β : Type} (e : ε) (f : α → β) :
    Except.map f (Except.error e : Except ε α) = Except.error e := rfl

/-- The Go pattern `for i, x := range xs { if i > 0 { sb.WriteString(sep) }; sb.WriteString(x) }`,
as a fold carrying the string built so far and the loop index. -/
def writeSep (sep : String) (xs : List String) : String :=
  (xs.foldl (fun (p : String × Nat) s =>
    (p.1 ++ (if 0 < p.2 then sep else "") ++ s, p.2 + 1)) ("", 0)).1

/-- Concatenation of a list of strings (recursive form, convenient for induction). -/
def joinAll : List String → String
  | [] => ""
  | x :: xs => x ++ joinAll xs

/-- Clean presentation of a separator-joined list: first element, then `sep` before each
subsequent element.  Used in theorem statements; `writeSep_eq_joinSep` relates it to the
source-shaped loop. -/
def joinSep (sep : String) : List String → String
  | [] => ""
  | x :: xs => x ++ joinAll (xs.map (fun s => sep ++ s))

theorem writeSep_go (sep : String) (xs : List String) (acc : String) (n : Nat) (h : 0 < n) :
    (xs.foldl (fun (p : String × Nat) s =>
      (p.1 ++ (if 0 < p.2 then sep else "") ++ s, p.2 + 1)) (acc, n)).1
    = acc ++ joinAll (xs.map (fun s => sep ++ s)) := by
  induction xs generalizing acc n with
  | nil => simp [joinAll]
  | cons x xs ih =>
    simp only [List.foldl_cons, List.map_cons, joinAll]
    rw [if_pos h, ih (acc ++ sep ++ x) (n + 1) (Nat.succ_pos n)]
    simp [String.append_assoc]

theorem writeSep_eq_joinSep (sep : String) (xs : List String) :
    writeSep sep xs = joinSep sep xs := by
  cases xs with
  | nil => rfl
  | cons x xs =>
    simp only [writeSep, joinSep, List.foldl_cons]
    rw [show (("" : String) ++ (if 0 < (0 : Nat) then sep else "")) ++ x = "" ++ x by simp]
    rw [writeSep_go sep xs ("" ++ x) 1 Nat.one_pos]
    simp

/-! ### `types.go`: enumerations -/

/-- Go `sqlBuilderType`.  Only the two listed constants are ever constructed. -/
inductive BuilderKind : Type
  | select
  | insert
deriving DecidableEq

/-- Go `selectType`. -/
inductive SelectKind : Type
  | notBasic
  | basic
  | selExists
  | selCount
deriving DecidableEq

/-- Go `previousAddedBuilderAction`. -/
inductive PrevAction : Type
  | nonePrevious
  | isSelect
  | isSelectFrom
  | isSelectJoin
  | isSelectWhere
  | isSelectOrderBy
  | isSelectOffset
  | isSelectLimit
  | isInsertInto
  | isInsertIntoValues
  | isInsertIntoOnConflict
  | isInsertIntoOnConflictDoUpdate
  | isInsertIntoOnConflictDoUpdateWhere
  | isInsertIntoOnConflictDoNothing
deriving DecidableEq

/-- Go `JoinType`. -/
inductive JoinType : Type
  | innerJoin
  | leftJoin
  | rightJoin
deriving DecidableEq

/-! ### `table_metadata.go`: keyword quoting, column/table metadata -/

/-- The predefined SQL keyword list installed by `init()` in `table_metadata.go`. -/
def initSqlKeywords : List String :=
  ["count", "index", "name", "type", "types", "from", "to", "order", "value", "state", "time",
   "left", "right", "day", "local"]

/-- Go `strings.ToLower` (executable model over the character list). -/
def toLowerString (s : String) : String := String.mk (s.data.map Char.toLower)

/-- Go `AddSqlKeyword`: `sqlKeywords[strings.ToLower(keyword)] = struct{}{}`.
The keyword set is modelled as the list of its members. -/
def addSqlKeyword (keyword : String) (kw : List String) : List String :=
  if toLowerString keyword ∈ kw then kw else kw ++ [toLowerString keyword]

/-- Go `wrapWithDoubleQuoteIfSqlKeyword` over an explicit keyword set `kw`
(the Go code reads the package-global set). -/
def wrapIfKeyword (kw : List String) (name : String) : String :=
  if name ∈ kw then "\"" ++ name ++ "\"" else name

/-- Go `wrapManyWithDoubleQuoteIfSqlKeyword`. -/
def wrapManyIfKeyword (kw : List String) (names : List String) : List String :=
  names.map (wrapIfKeyword kw)

/-- Go `ColumnMetadata[T]`: the record type `T` is the parameter `V`, the extracted
`any` insert value is the parameter `A` (`selectSpec` is modelled separately,
in the row-correlator section). -/
structure ColumnMeta (V A : Type) where
  name : String
  isPk : Bool
  insertSpec : V → A

/-- Go `TableMetadata[T]` (plus the `typeName()` identity Go gets from reflection). -/
structure TableMeta (V A : Type) where
  name : String
  typeName : String
  columns : List (ColumnMeta V A)

/-- The `columnsByName` map that `TableMetadataBuilder.Build` constructs
(keyed by the already-wrapped column name). -/
def TableMeta.columnsByName {V A : Type} (t : TableMeta V A) : List (String × ColumnMeta V A) :=
  t.columns.foldl (fun m c => assocSet m c.name c) []

/-- Go `TableMetadata.MustGetColumnByName` (panic ⇒ `Except.error`). -/
def TableMeta.mustGetColumnByName {V A : Type} (kw : List String) (t : TableMeta V A)
    (name : String) : Except String (ColumnMeta V A) :=
  match assocGet t.columnsByName (wrapIfKeyword kw name) with
  | some c => .ok c
  | none => .error ("column with name " ++ name ++ " not found")

/-- `TableMetadata.ColumnsName`. -/
def TableMeta.columnsName {V A : Type} (t : TableMeta V A) : List String :=
  t.columns.map (·.name)

/-- Go `TableMetadata.insertSpecOfColumns`: per requested column name (wrapped again,
a no-op on already-wrapped names), the registered insert extractor. -/
def TableMeta.insertSpecOfColumns {V A : Type} (kw : List String) (t : TableMeta V A)
    (columnsName : List String) : Except String (List (V → A)) :=
  let columnsName := if columnsName.isEmpty then t.columnsName else columnsName
  columnsName.mapM (fun n =>
    (t.mustGetColumnByName kw (wrapIfKeyword kw n)).map (·.insertSpec))

/-- Go `TableMetadataBuilder.AddColumns`: trims and keyword-wraps each column name. -/
def addColumns {V A : Type} (kw : List String) (cols : List (ColumnMeta V A)) :
    List (ColumnMeta V A) :=
  cols.map (fun c => { c with name := wrapIfKeyword kw (trimSpace c.name) })

/-- Lexicographic (code-point) comparison, standing in for Go's `sort.Strings` order. -/
def strListLe : List Char → List Char → Bool
  | [], _ => true
  | _ :: _, [] => false
  | a :: as, b :: bs =>
    if a.val < b.val then true else if b.val < a.val then false else strListLe as bs

def strLe (a b : String) : Bool := strListLe a.data b.data

def insertSorted (x : String) : List String → List String
  | [] => [x]
  | y :: ys => if strLe x y then x :: y :: ys else y :: insertSorted x ys

/-- Go `sort.Strings`. -/
def sortStrings : List String → List String
  | [] => []
  | x :: xs => insertSorted x (sortStrings xs)

/-- The primary-key column names collected by `TableMetadataBuilder.Build`'s loop,
in declaration order. -/
def pkColumnsName {V A : Type} (cols : List (ColumnMeta V A)) : List String :=
  (cols.filter (·.isPk)).map (·.name)

/-- The duplicate-column-name detection loop of `TableMetadataBuilder.Build`, building the
`columnsByName` map as it goes. -/
def tmDupFold {V A : Type} (cols : List (ColumnMeta V A)) :
    Except String (List (String × ColumnMeta V A)) :=
  cols.foldlM (fun (m : List (String × ColumnMeta V A)) c =>
    if (assocGet m c.name).isSome then
      Except.error ("column with name " ++ c.name ++ " is already added")
    else .ok (assocSet m c.name c)) []

/-- Go `TableMetadataBuilder.Build` (`table_metadata.go`): duplicate-column check,
primary-key cross-check against `opt.ExpectedPkColumns`, duplicate-registration check.
`registered` models the package-global `registeredTableTypeToName` key set; `cols` is the
builder's column list after `AddColumns` processing. -/
def tmBuild {V A : Type} (kw : List String) (registered : List String)
    (typeName tableName : String) (cols : List (ColumnMeta V A)) (expectedPk : List String) :
    Except String (TableMeta V A) := do
  let _ ← tmDupFold cols
  let expected := wrapManyIfKeyword kw expectedPk
  if sortStrings (pkColumnsName cols) ≠ sortStrings expected then
    .error ("expected primary keys for table " ++ tableName ++ " mismatch")
  else if typeName ∈ registered then
    .error ("table for type " ++ typeName ++ " is already registered")
  else
    .ok { name := tableName, typeName := typeName, columns := cols }

/-! ### `use_table.go`: tables-in-use and columns-in-use -/

/-- Go `TableToUse[T]` (its interface view `GenericTableToUse` carries the same data). -/
structure TableToUse (V A : Type) where
  uid : Int
  sealed : Bool
  meta : TableMeta V A
  name : String
  tableAlias : String

/-- Go `GenericColumnToUse`. -/
structure ColumnToUse (V A : Type) where
  name : String
  isPk : Bool
  table : TableToUse V A

/-- Go `GenericColumnToUse.nameWithAlias`: `[alias].[column]`. -/
def ColumnToUse.nameWithAlias {V A : Type} (c : ColumnToUse V A) : String :=
  c.table.tableAlias ++ "." ++ c.name

/-- Go `mustSealed` (panic ⇒ error). -/
def TableToUse.mustSealed {V A : Type} (t : TableToUse V A) : Except String Unit :=
  if t.sealed then .ok () else .error ("table " ++ t.meta.name ++ " is must be sealed")

/-- Go `TableToUse.allColumns`. -/
def TableToUse.allColumns {V A : Type} (t : TableToUse V A) : List (ColumnToUse V A) :=
  t.meta.columns.map (fun c => { name := c.name, isPk := c.isPk, table := t })

/-! ### The statement builder: state and fluent methods -/

/-- A WHERE / DO-UPDATE token (Go: `any`).  The Go renderer switches on
string / `GenericColumnToUse` / the integer types / `bool`, and panics on anything else;
`unsupported` stands for every other runtime type. -/
inductive Token (V A : Type) : Type
  | str (s : String)
  | col (c : ColumnToUse V A)
  | int (i : Int)
  | bool (b : Bool)
  | unsupported

/-- Go `joinOn`. -/
structure JoinOn (V A : Type) where
  joinType : JoinType
  joinOnTable : TableToUse V A
  joinOnColumns : List (ColumnToUse V A)

/-- Go `orderBy`. -/
structure OrderCol (V A : Type) where
  column : ColumnToUse V A
  asc : Bool

/-- Go `SqlBuilder`. -/
structure SqlBuilder (V A : Type) where
  kind : BuilderKind
  previousAction : PrevAction
  aliasToTableUniqueId : List (String × Int)
  tableUniqueIdToAlias : List (Int × String)
  selectType : SelectKind
  selectColumns : List (ColumnToUse V A)
  selectFromTable : List (TableToUse V A)
  joinsOn : List (JoinOn V A)
  whereTokens : List (Token V A)
  whereArgs : List A
  orders : List (OrderCol V A)
  offset : Nat
  limit : Nat
  insertIntoTable : Option (TableToUse V A)
  insertColumns : List (ColumnToUse V A)
  insertValues : List V
  insertOnConflictKeys : List (ColumnToUse V A)
  insertOnConflictDoUpdateTokens : List (Token V A)
  insertOnConflictDoUpdateWhereTokens : List (Token V A)
  insertOnConflictDoNothing : Bool

namespace SqlBuilder

variable {V A : Type}

/-- Go `newSqlBuilder()`. -/
def newSqlBuilder : SqlBuilder V A where
  kind := .select
  previousAction := .nonePrevious
  aliasToTableUniqueId := []
  tableUniqueIdToAlias := []
  selectType := .notBasic
  selectColumns := []
  selectFromTable := []
  joinsOn := []
  whereTokens := []
  whereArgs := []
  orders := []
  offset := 0
  limit := 0
  insertIntoTable := none
  insertColumns := []
  insertValues := []
  insertOnConflictKeys := []
  insertOnConflictDoUpdateTokens := []
  insertOnConflictDoUpdateWhereTokens := []
  insertOnConflictDoNothing := false

/-- Go `SqlBuilder.registerUsingTable`: seal check, alias-conflict check, then bind
`alias → uid` and `uid → alias`. -/
def registerUsingTable (b : SqlBuilder V A) (use : TableToUse V A) :
    Except String (SqlBuilder V A) :=
  match use.mustSealed with
  | .error e => .error e
  | .ok _ =>
    match assocGet b.aliasToTableUniqueId use.tableAlias with
    | some byTableUid =>
      if byTableUid ≠ use.uid then
        .error ("alias " ++ use.tableAlias ++ " already used by table")
      else
        .ok { b with
          aliasToTableUniqueId := assocSet b.aliasToTableUniqueId use.tableAlias use.uid
          tableUniqueIdToAlias := assocSet b.tableUniqueIdToAlias use.uid use.tableAlias }
    | none =>
      .ok { b with
        aliasToTableUniqueId := assocSet b.aliasToTableUniqueId use.tableAlias use.uid
        tableUniqueIdToAlias := assocSet b.tableUniqueIdToAlias use.uid use.tableAlias }

def registerUsingTables (b : SqlBuilder V A) (uses : List (TableToUse V A)) :
    Except String (SqlBuilder V A) :=
  uses.foldlM registerUsingTable b

/-- `SqlBuilder.Select` (method): adds more columns to a basic SELECT.
Check order as in Go: type, select-kind, previous action, then registration. -/
def selectCols (b : SqlBuilder V A) (columns : List (ColumnToUse V A)) :
    Except String (SqlBuilder V A) :=
  if b.kind ≠ .select then .error "only SELECT is supported" else
  if b.selectType ≠ .basic then .error "only SELECT is supported by this operation" else
  if b.previousAction ∉ [PrevAction.isSelect] then .error "unexpected previous action" else
  match b.registerUsingTables (columns.map (·.table)) with
  | .error e => .error e
  | .ok b =>
    .ok { b with selectColumns := b.selectColumns ++ columns, previousAction := .isSelect }

/-- Package-level `Select(...)` constructor. -/
def selectBuilder (columns : List (ColumnToUse V A)) : Except String (SqlBuilder V A) :=
  ({ newSqlBuilder with
      kind := .select, selectType := .basic, previousAction := .isSelect } :
    SqlBuilder V A).selectCols columns

/-- Package-level `SelectExists()`. -/
def selectExistsBuilder : Except String (SqlBuilder V A) :=
  (selectBuilder []).map (fun b => { b with selectType := .selExists })

/-- Package-level `SelectCount()`. -/
def selectCountBuilder : Except String (SqlBuilder V A) :=
  (selectBuilder []).map (fun b => { b with selectType := .selCount })

/-- Package-level `InsertInto(use, columns...)`. -/
def insertIntoBuilder (use : TableToUse V A) (columns : List (ColumnToUse V A)) :
    Except String (SqlBuilder V A) :=
  let b : SqlBuilder V A := { newSqlBuilder with kind := .insert }
  let columns := if columns.isEmpty then use.allColumns else columns
  let b := { b with insertColumns := columns }
  match b.registerUsingTable use with
  | .error e => .error e
  | .ok b =>
    .ok { b with insertIntoTable := some use, previousAction := .isInsertInto }

/-- `SqlBuilder.From`. -/
def fromTables (b : SqlBuilder V A) (tables : List (TableToUse V A)) :
    Except String (SqlBuilder V A) :=
  if b.kind ≠ .select then .error "only SELECT is supported" else
  if b.previousAction ∉ [PrevAction.isSelect, PrevAction.isSelectFrom] then
    .error "unexpected previous action" else
  match b.registerUsingTables tables with
  | .error e => .error e
  | .ok b =>
    .ok { b with selectFromTable := tables, previousAction := .isSelectFrom }

/-- Consecutive pairs of a list (Go's `for i := 0; i < len; i += 2` loop shape);
assumes even length (the odd trailing element, if any, is dropped). -/
def toPairs {α : Type} : List α → List (α × α)
  | x :: y :: rest => (x, y) :: toPairs rest
  | _ => []

/-- `SqlBuilder.Join`: per pair, same-table and on-table membership checks, then
registration of both sides. -/
def joinOn (b : SqlBuilder V A) (joinType : JoinType) (joinOnTable : TableToUse V A)
    (onKeyPairs : List (ColumnToUse V A)) : Except String (SqlBuilder V A) :=
  if b.kind ≠ .select then .error "only SELECT is supported" else
  if b.previousAction ∉ [PrevAction.isSelectFrom, PrevAction.isSelectJoin] then
    .error "unexpected previous action" else
  if onKeyPairs.length % 2 ≠ 0 then .error "onKeyPairs must be even" else
  match (toPairs onKeyPairs).foldlM (fun (b : SqlBuilder V A) p =>
      let leftTable := p.1.table
      let rightTable := p.2.table
      if leftTable.name = rightTable.name then
        Except.error "join on the same table"
      else if leftTable.name ≠ joinOnTable.name ∧ rightTable.name ≠ joinOnTable.name then
        Except.error "either of the join must be the joined table"
      else
        match b.registerUsingTable leftTable with
        | .error e => .error e
        | .ok b => b.registerUsingTable rightTable) b with
  | .error e => .error e
  | .ok b =>
    .ok { b with
      joinsOn := b.joinsOn ++ [{ joinType := joinType, joinOnTable := joinOnTable,
                                 joinOnColumns := onKeyPairs }]
      previousAction := .isSelectJoin }

/-- `SqlBuilder.Where` (SELECT and INSERT-DO-UPDATE variants, switched on the kind). -/
def whereTokensCall (b : SqlBuilder V A) (tokens : List (Token V A)) :
    Except String (SqlBuilder V A) :=
  match b.kind with
  | .select =>
    if b.previousAction ∉ [PrevAction.isSelectFrom, PrevAction.isSelectJoin,
        PrevAction.isSelectWhere] then .error "unexpected previous action" else
    .ok { b with whereTokens := b.whereTokens ++ tokens, previousAction := .isSelectWhere }
  | .insert =>
    if b.previousAction ∉ [PrevAction.isInsertIntoOnConflictDoUpdate] then
      .error "unexpected previous action" else
    .ok { b with insertOnConflictDoUpdateWhereTokens := tokens,
                 previousAction := .isInsertIntoOnConflictDoUpdateWhere }

/-- `SqlBuilder.And`. -/
def andTokens (b : SqlBuilder V A) (tokens : List (Token V A)) :
    Except String (SqlBuilder V A) :=
  match b.kind with
  | .select =>
    if b.previousAction ∉ [PrevAction.isSelectWhere] then
      .error "unexpected previous action" else
    if b.whereTokens.isEmpty then .error "AND must be after WHERE" else
    if tokens.isEmpty then .error "AND must have at least one token" else
    .ok { b with whereTokens := b.whereTokens ++ [Token.str "AND"] ++ tokens }
  | .insert =>
    if b.previousAction ∉ [PrevAction.isInsertIntoOnConflictDoUpdateWhere] then
      .error "unexpected previous action" else
    if b.insertOnConflictDoUpdateWhereTokens.isEmpty then
      .error "AND must be after WHERE" else
    if tokens.isEmpty then .error "AND must have at least one token" else
    .ok { b with insertOnConflictDoUpdateWhereTokens :=
      b.insertOnConflictDoUpdateWhereTokens ++ [Token.str "AND"] ++ tokens }

/-- `SqlBuilder.Or`. -/
def orTokens (b : SqlBuilder V A) (tokens : List (Token V A)) :
    Except String (SqlBuilder V A) :=
  match b.kind with
  | .select =>
    if b.previousAction ∉ [PrevAction.isSelectWhere] then
      .error "unexpected previous action" else
    if b.whereTokens.isEmpty then .error "OR must be after WHERE" else
    if tokens.isEmpty then .error "OR must have at least one token" else
    .ok { b with whereTokens := b.whereTokens ++ [Token.str "OR"] ++ tokens }
  | .insert =>
    if b.previousAction ∉ [PrevAction.isInsertIntoOnConflictDoUpdateWhere] then
      .error "unexpected previous action" else
    if b.insertOnConflictDoUpdateWhereTokens.isEmpty then
      .error "OR must be after WHERE" else
    if tokens.isEmpty then .error "OR must have at least one token" else
    .ok { b with insertOnConflictDoUpdateWhereTokens :=
      b.insertOnConflictDoUpdateWhereTokens ++ [Token.str "OR"] ++ tokens }

/-- `SqlBuilder.Args`. -/
def argsCall (b : SqlBuilder V A) (whereArgs : List A) : Except String (SqlBuilder V A) :=
  if b.kind ≠ .select then .error "only SELECT is supported" else
  if b.previousAction ∉ [PrevAction.isSelectWhere] then
    .error "unexpected previous action" else
  .ok { b with whereArgs := b.whereArgs ++ whereArgs }

/-- `SqlBuilder.OrderBy`. -/
def orderByCall (b : SqlBuilder V A) (column : ColumnToUse V A) (asc : Bool) :
    Except String (SqlBuilder V A) :=
  if b.kind ≠ .select then .error "only SELECT is supported" else
  if b.selectType ≠ .basic then .error "only SELECT is supported by this operation" else
  if b.previousAction ∉ [PrevAction.isSelectFrom, PrevAction.isSelectJoin,
      PrevAction.isSelectWhere, PrevAction.isSelectOrderBy] then
    .error "unexpected previous action" else
  .ok { b with orders := b.orders ++ [{ column := column, asc := asc }],
               previousAction := .isSelectOrderBy }

/-- `SqlBuilder.ThenBy` (does not advance `previousAction`; it stays `ORDER BY`). -/
def thenByCall (b : SqlBuilder V A) (column : ColumnToUse V A) (asc : Bool) :
    Except String (SqlBuilder V A) :=
  if b.kind ≠ .select then .error "only SELECT is supported" else
  if b.selectType ≠ .basic then .error "only SELECT is supported by this operation" else
  if b.previousAction ∉ [PrevAction.isSelectOrderBy] then
    .error "unexpected previous action" else
  .ok { b with orders := b.orders ++ [{ column := column, asc := asc }] }

/-- `SqlBuilder.Offset`. -/
def offsetCall (b : SqlBuilder V A) (offset : Nat) : Except String (SqlBuilder V A) :=
  if b.kind ≠ .select then .error "only SELECT is supported" else
  if b.selectType ≠ .basic then .error "only SELECT is supported by this operation" else
  if b.previousAction ∉ [PrevAction.isSelectFrom, PrevAction.isSelectJoin,
      PrevAction.isSelectWhere, PrevAction.isSelectOrderBy, PrevAction.isSelectLimit] then
    .error "unexpected previous action" else
  .ok { b with offset := offset, previousAction := .isSelectOffset }

/-- `SqlBuilder.Limit`. -/
def limitCall (b : SqlBuilder V A) (limit : Nat) : Except String (SqlBuilder V A) :=
  if b.kind ≠ .select then .error "only SELECT is supported" else
  if b.selectType ≠ .basic then .error "only SELECT is supported by this operation" else
  if b.previousAction ∉ [PrevAction.isSelectFrom, PrevAction.isSelectJoin,
      PrevAction.isSelectWhere, PrevAction.isSelectOrderBy, PrevAction.isSelectOffset] then
    .error "unexpected previous action" else
  .ok { b with limit := limit, previousAction := .isSelectLimit }

/-- `SqlBuilder.Values`: per-value record-type check against the target table's
registered type (`tn` models Go's reflection `getStructTypeName`). -/
def valuesCall (b : SqlBuilder V A) (tn : V → String) (values : List V) :
    Except String (SqlBuilder V A) :=
  if b.kind ≠ .insert then .error "only INSERT is supported" else
  if b.previousAction ∉ [PrevAction.isInsertInto] then
    .error "unexpected previous action" else
  match b.insertIntoTable with
  | none => .error "nil insert target table"
  | some tbl =>
    if values.any (fun v => tn v ≠ tbl.meta.typeName) then
      .error ("value is not of type " ++ tbl.meta.typeName)
    else
      .ok { b with insertValues := values, previousAction := .isInsertIntoValues }

/-- `SqlBuilder.OnConflict`. -/
def onConflictCall (b : SqlBuilder V A) (columns : List (ColumnToUse V A)) :
    Except String (SqlBuilder V A) :=
  if b.kind ≠ .insert then .error "only INSERT is supported" else
  if b.previousAction ∉ [PrevAction.isInsertIntoValues] then
    .error "unexpected previous action" else
  if !b.insertOnConflictKeys.isEmpty then .error "ON CONFLICT keys already added" else
  match b.insertIntoTable with
  | none =>
    if columns.isEmpty then
      .ok { b with insertOnConflictKeys := columns,
                   previousAction := .isInsertIntoOnConflict }
    else .error "nil insert target table"
  | some tbl =>
    if columns.any (fun c => c.table.name ≠ tbl.name) then
      .error ("column is not from table " ++ tbl.name)
    else
      .ok { b with insertOnConflictKeys := columns,
                   previousAction := .isInsertIntoOnConflict }

/-- `SqlBuilder.DoUpdate`.  In Go the `previousAction` advance is a `defer` registered before
the conflict-keys check; the panic path is modelled as a plain error (the panicking Go
program never observes the builder again). -/
def doUpdateCall (b : SqlBuilder V A) (tokens : List (Token V A)) :
    Except String (SqlBuilder V A) :=
  if b.kind ≠ .insert then .error "only INSERT is supported" else
  if b.previousAction ∉ [PrevAction.isInsertIntoOnConflict,
      PrevAction.isInsertIntoOnConflictDoUpdate] then
    .error "unexpected previous action" else
  if b.insertOnConflictKeys.isEmpty then .error "ON CONFLICT keys not added" else
  let b := if !b.insertOnConflictDoUpdateTokens.isEmpty then
    { b with insertOnConflictDoUpdateTokens :=
        b.insertOnConflictDoUpdateTokens ++ [Token.str ",\n"] }
    else b
  .ok { b with insertOnConflictDoUpdateTokens := b.insertOnConflictDoUpdateTokens ++ tokens,
               previousAction := .isInsertIntoOnConflictDoUpdate }

/-- `SqlBuilder.DoNothing`. -/
def doNothingCall (b : SqlBuilder V A) : Except String (SqlBuilder V A) :=
  if b.kind ≠ .insert then .error "only INSERT is supported" else
  if b.previousAction ∉ [PrevAction.isInsertIntoOnConflict] then
    .error "unexpected previous action" else
  .ok { b with insertOnConflictDoNothing := true,
               previousAction := .isInsertIntoOnConflictDoNothing }

end SqlBuilder

/-! ### The renderer: `buildSelect` / `buildInsert` -/

variable {V A : Type}

/-- One WHERE token of a SELECT, as rendered by the `switch` in `buildSelect`
(Go `strings.TrimSpace` ⇒ `trimSpace`; the integer cases all print `%d`;
any other runtime type panics). -/
def renderWhereTokenSelect : Token V A → Except String String
  | .str s => .ok (trimSpace s)
  | .col c => .ok c.nameWithAlias
  | .int i => .ok (toString i)
  | .bool b => .ok (if b then "TRUE" else "FALSE")
  | .unsupported => .error "unexpected WHERE token type"

/-- One DO UPDATE SET token, as rendered by the first `switch` in `buildInsert`'s
ON CONFLICT branch: column tokens render as the bare column name. -/
def renderDoUpdateToken : Token V A → Except String String
  | .str s => .ok (trimSpace s)
  | .col c => .ok c.name
  | .int i => .ok (toString i)
  | .bool b => .ok (if b then "TRUE" else "FALSE")
  | .unsupported => .error "unexpected ON CONFLICT UPDATE token type"

/-- One DO UPDATE WHERE token, as rendered by the second `switch` in `buildInsert`'s
ON CONFLICT branch: column tokens render as `tablename.column`. -/
def renderDoUpdateWhereToken : Token V A → Except String String
  | .str s => .ok (trimSpace s)
  | .col c => .ok (c.table.name ++ "." ++ c.name)
  | .int i => .ok (toString i)
  | .bool b => .ok (if b then "TRUE" else "FALSE")
  | .unsupported => .error "unexpected ON CONFLICT UPDATE WHERE token type"

/-- The Go loop `for _, token := range tokens { sb.WriteString(" "); <render token> }`:
every token is preceded by a single space; the first unsupported token aborts. -/
def streamRender (f : Token V A → Except String String) (tokens : List (Token V A)) :
    Except String String :=
  tokens.foldlM (fun acc t => (f t).map (fun s => acc ++ " " ++ s)) ""

/-- The `SELECT ` line of `buildSelect` (trailing `"\n"` only in the column-list case,
exactly as in the Go code). -/
def SqlBuilder.selectSec (b : SqlBuilder V A) : String :=
  "SELECT " ++
    (if b.selectType = .selExists then "1 "
     else if b.selectType = .selCount then "COUNT(1) "
     else writeSep ", " (b.selectColumns.map (·.nameWithAlias)) ++ "\n")

/-- The `FROM` line of `buildSelect`. -/
def SqlBuilder.fromSec (b : SqlBuilder V A) : String :=
  "FROM " ++
    writeSep ", " (b.selectFromTable.map (fun t => t.name ++ " AS " ++ t.tableAlias)) ++ "\n"

def joinTypeStr : JoinType → String
  | .leftJoin => "LEFT JOIN "
  | .rightJoin => "RIGHT JOIN "
  | .innerJoin => "INNER JOIN "

/-- One `JOIN ... ON ...` line of `buildSelect`. -/
def joinOnLine (j : JoinOn V A) : String :=
  joinTypeStr j.joinType ++ j.joinOnTable.name ++ " AS " ++ j.joinOnTable.tableAlias ++
    " ON " ++
    writeSep " AND "
      ((SqlBuilder.toPairs j.joinOnColumns).map
        (fun p => p.1.nameWithAlias ++ " = " ++ p.2.nameWithAlias)) ++ "\n"

def SqlBuilder.joinSec (b : SqlBuilder V A) : String :=
  joinAll (b.joinsOn.map joinOnLine)

/-- The `ORDER BY` line of `buildSelect`. -/
def SqlBuilder.orderSec (b : SqlBuilder V A) : String :=
  if b.orders.isEmpty then ""
  else
    "ORDER BY " ++
      writeSep ", " (b.orders.map
        (fun o => o.column.nameWithAlias ++ (if o.asc then " ASC" else " DESC"))) ++ "\n"

/-- The `OFFSET` / `LIMIT` block of `buildSelect`: note the Go conditions test the stored
values against `0`, not whether `Offset` / `Limit` were called. -/
def SqlBuilder.offsetLimitSec (b : SqlBuilder V A) : String :=
  if 0 < b.offset ∧ 0 < b.limit then
    "OFFSET " ++ toString b.offset ++ " LIMIT " ++ toString b.limit ++ "\n"
  else if 0 < b.offset then "OFFSET " ++ toString b.offset ++ "\n"
  else if 0 < b.limit then "LIMIT " ++ toString b.limit ++ "\n"
  else ""

/-- Go `SqlBuilder.buildSelect`.  The `strings.Builder` writes appear as a concatenation of
the section strings, in the order the Go code writes them; the final `SELECT EXISTS(...)`
wrap applies to the whole accumulated statement. -/
def SqlBuilder.buildSelect (b : SqlBuilder V A) : Except String (String × List A) :=
  (if b.selectColumns.isEmpty then
    match b.selectType with
    | .basic => Except.error "no columns selected"
    | .selExists => Except.ok ()
    | .selCount => Except.ok ()
    | .notBasic => Except.error "unexpected select type"
   else Except.ok ()).bind fun _ =>
  if b.selectFromTable.isEmpty then .error "no tables selected" else
  match streamRender renderWhereTokenSelect b.whereTokens with
  | .error e => .error e
  | .ok whereStr =>
    let stmt := b.selectSec ++ b.fromSec ++ b.joinSec ++
      (if b.whereTokens.isEmpty then "" else "WHERE" ++ whereStr ++ "\n") ++
      b.orderSec ++ b.offsetLimitSec
    let stmt := if b.selectType = .selExists then "SELECT EXISTS(" ++ stmt ++ ")" else stmt
    .ok (stmt, b.whereArgs)

/-- The `(`$1,$2,...`)` placeholder groups of `buildInsert`'s VALUES clause: row `r`
(0-indexed) uses `vi = r * columnsCount` and 1-indexed `paramIdx`, i.e. `$(r*c+paramIdx)`. -/
def valuesPlaceholders (rows cols : Nat) : String :=
  writeSep ","
    ((List.range rows).map (fun r =>
      "(" ++
        writeSep ","
          ((List.range cols).map (fun paramIdx => "$" ++ toString (r * cols + paramIdx + 1))) ++
        ")"))

/-- The flattened argument list of `buildInsert`: for each row value, every registered
insert extractor of the named columns, in column order. -/
def insertArgs (specs : List (V → A)) (values : List V) : List A :=
  values.foldl (fun acc record => acc ++ specs.map (fun isf => isf record)) []

/-- The `ON CONFLICT` block of `buildInsert` (empty when neither `DoNothing` nor conflict
keys were set). -/
def SqlBuilder.conflictSec (b : SqlBuilder V A) : Except String String :=
  if b.insertOnConflictDoNothing then .ok "\nON CONFLICT DO NOTHING"
  else if b.insertOnConflictKeys.isEmpty then .ok ""
  else
    match streamRender renderDoUpdateToken b.insertOnConflictDoUpdateTokens with
    | .error e => .error e
    | .ok setStr =>
      match (if b.insertOnConflictDoUpdateWhereTokens.isEmpty then Except.ok ""
             else (streamRender renderDoUpdateWhereToken
                     b.insertOnConflictDoUpdateWhereTokens).map
                     (fun s => "\nWHERE" ++ s)) with
      | .error e => .error e
      | .ok whereStr =>
        .ok ("\nON CONFLICT (" ++
          writeSep ", " (b.insertOnConflictKeys.map (·.name)) ++ ") " ++
          "DO UPDATE SET\n" ++ setStr ++ whereStr)

/-- Go `SqlBuilder.buildInsert`: guards, the `INSERT INTO t (cols)` head, the VALUES
placeholder groups with the flattened extracted arguments, then the ON CONFLICT block.
`kw` is the global SQL keyword set read by `insertSpecOfColumns`. -/
def SqlBuilder.buildInsert (kw : List String) (b : SqlBuilder V A) :
    Except String (String × List A) :=
  if b.insertColumns.isEmpty then .error "no columns selected for inserting" else
  match b.insertIntoTable with
  | none => .error "no tables selected for inserting"
  | some tbl =>
    if b.insertValues.isEmpty then .error "no values for inserting" else
    let columnsName := b.insertColumns.map (·.name)
    match tbl.meta.insertSpecOfColumns kw columnsName with
    | .error e => .error e
    | .ok specs =>
      match b.conflictSec with
      | .error e => .error e
      | .ok confStr =>
        .ok ("INSERT INTO " ++ tbl.name ++ " (" ++ writeSep ", " columnsName ++ ")\nVALUES " ++
               valuesPlaceholders b.insertValues.length b.insertColumns.length ++ confStr,
             insertArgs specs b.insertValues)

/-- Go `SqlBuilder.Build`. -/
def SqlBuilder.build (kw : List String) (b : SqlBuilder V A) :
    Except String (String × List A) :=
  match b.kind with
  | .select => b.buildSelect
  | .insert => b.buildInsert kw

/-! ### The row correlator (`use_table.go`: `ScannedRows`, `scanRows`) -/

/-- Go `row`: a deferred record cell.  `valueFunc` (a closure over the scanned record)
is modelled by the record value it would return. -/
structure RowCell (V : Type) where
  value : V
  read : Bool

/-- Go `ScannedRows`. -/
structure ScannedRows (V : Type) where
  rowsOfAliasToRow : List (List (String × RowCell V))
  rowIdx : Nat
  anyNext : Bool

namespace ScannedRows

variable {V : Type}

/-- Go `ScannedRows.Next`: when positioned on a row, every cell of the current row must
have been read; then advance (or, on the very first call, position on row 0).  Returns the
new state and whether a row is available.  Indexing past the stored rows (Go: slice index
panic, only reachable by calling `Next` again after exhaustion) is an error. -/
def next (sr : ScannedRows V) : Except String (ScannedRows V × Bool) :=
  (if sr.anyNext then
    match sr.rowsOfAliasToRow.get? sr.rowIdx with
    | none => Except.error "index out of range"
    | some currentRow =>
      if currentRow.all (fun p => p.2.read) then .ok ()
      else .error "not all columns are read before moving to the next row"
   else Except.ok ()).bind fun _ =>
  let sr := if sr.anyNext then { sr with rowIdx := sr.rowIdx + 1 }
            else { sr with anyNext := true, rowIdx := 0 }
  .ok (sr, sr.rowIdx < sr.rowsOfAliasToRow.length)

/-- Mark the cell of alias `a` in a logical row as read. -/
def markRead (row : List (String × RowCell V)) (a : String) : List (String × RowCell V) :=
  row.map (fun p => if p.1 = a then (p.1, { p.2 with read := true }) else p)

/-- Go `ScannedRows.GetTable`: requires a prior `Next`; looks up the alias in the current
logical row (a missing alias is Go's nil-pointer panic), marks it read, and returns the
materialized record. -/
def getTable (sr : ScannedRows V) (byAlias : String) : Except String (V × ScannedRows V) :=
  if !sr.anyNext then .error "require calls Next() first" else
  match sr.rowsOfAliasToRow.get? sr.rowIdx with
  | none => .error "index out of range"
  | some row =>
    match assocGet row byAlias with
    | none => .error "nil row cell"
    | some cell =>
      .ok (cell.value,
        { sr with rowsOfAliasToRow :=
            sr.rowsOfAliasToRow.set sr.rowIdx (markRead row byAlias) })

end ScannedRows

/-- A scan-target slot, abstracting the pointer `spec.ToQueryArg()` returns in Go: the
slot for the `i`-th requested column (0-indexed, within its alias's requested column list)
named `name` of the fresh record for table alias `alias`. -/
structure ScanTarget where
  tableAlias : String
  name : String
  pos : Nat
deriving DecidableEq

/-- `tableAliasToColumnToIndex` of `scanRows`: built by one pass over the select columns,
`m[alias][name] = i` — a later duplicate `(alias, name)` pair overwrites the earlier index. -/
def scanIndexMap (cols : List (String × String)) : List ((String × String) × Nat) :=
  (cols.enum.foldl (fun m p => assocSet m p.2 p.1) [])

/-- `columnsByTableAlias` of `scanRows`: per alias, the selected column names in order. -/
def scanColumnsByAlias (cols : List (String × String)) (a : String) : List String :=
  (cols.filter (fun c => c.1 = a)).map (·.2)

/-- The aliases of the select-column list in first-appearance order (Go iterates the
`tablesByAlias` map in unspecified order; the writes of distinct aliases touch disjoint
indices, so any order yields the same array). -/
def scanAliases (cols : List (String × String)) : List String :=
  cols.foldl (fun acc c => if c.1 ∈ acc then acc else acc ++ [c.1]) []

/-- One scan-destination write: place `w.2` at index `w.1` when the index is known
(a `none` index leaves the array untouched; on the code's own maps the lookup always
succeeds). -/
def writeCell (arr : List (Option ScanTarget)) (w : Option Nat × ScanTarget) :
    List (Option ScanTarget) :=
  match w.1 with
  | some k => arr.set k (some w.2)
  | none => arr

/-- The flat scan-destination array construction of `scanRows` (built per physical row in
Go, from maps computed once per statement): start from `make([]any, len(selectColumns))`
(all slots nil ⇒ `none`), then for each alias and each of its requested columns `i`,
write that spec's scan target at `tableAliasToColumnToIndex[alias][column]`. -/
def scanLayout (cols : List (String × String)) : List (Option ScanTarget) :=
  (scanAliases cols).foldl
    (fun arr a =>
      (scanColumnsByAlias cols a).enum.foldl
        (fun arr p =>
          writeCell arr (assocGet (scanIndexMap cols) (a, p.2),
            { tableAlias := a, name := p.2, pos := p.1 }))
        arr)
    (List.replicate cols.length (none : Option ScanTarget))

/-! ### Association-list lemmas (Go map semantics) -/

section AssocLemmas

variable {κ β : Type} [DecidableEq κ]

theorem assocGet_nil (k : κ) : assocGet ([] : List (κ × β)) k = none := rfl

theorem assocGet_cons (p : κ × β) (m : List (κ × β)) (k : κ) :
    assocGet (p :: m) k = if p.1 = k then some p.2 else assocGet m k := by
  by_cases h : p.1 = k <;> simp [assocGet, List.find?_cons, h]

theorem assocGet_eq_none_iff (m : List (κ × β)) (k : κ) :
    assocGet m k = none ↔ ∀ p ∈ m, p.1 ≠ k := by
  induction m with
  | nil => simp [assocGet_nil]
  | cons p m ih =>
    rw [assocGet_cons]
    by_cases h : p.1 = k <;> simp [h, ih]

theorem assocSet_of_not_mem (m : List (κ × β)) (k : κ) (v : β)
    (h : assocGet m k = none) : assocSet m k v = m ++ [(k, v)] := by
  rw [assocGet_eq_none_iff] at h
  unfold assocSet
  rw [if_neg]
  simp only [List.any_eq_true, decide_eq_true_eq, not_exists, not_and]
  intro p hp
  exact h p hp

theorem assocGet_isSome_iff (m : List (κ × β)) (k : κ) :
    (assocGet m k).isSome = true ↔ ∃ p ∈ m, p.1 = k := by
  induction m with
  | nil => simp [assocGet_nil]
  | cons p m ih =>
    rw [assocGet_cons]
    by_cases h : p.1 = k <;> simp [h, ih]

theorem assocSet_any_true (m : List (κ × β)) (k : κ) (v : β)
    (h : (m.any fun p => decide (p.1 = k)) = true) :
    assocSet m k v = m.map (fun p => if p.1 = k then (k, v) else p) := by
  unfold assocSet
  rw [if_pos h]

theorem assocGet_map_overwrite_self (m : List (κ × β)) (k : κ) (v : β)
    (h : ∃ p ∈ m, p.1 = k) :
    assocGet (m.map (fun p => if p.1 = k then (k, v) else p)) k = some v := by
  induction m with
  | nil => simp at h
  | cons q m ih =>
    simp only [List.map_cons]
    by_cases hq : q.1 = k
    · rw [if_pos hq, assocGet_cons, if_pos rfl]
    · rw [if_neg hq, assocGet_cons, if_neg hq]
      rcases h with ⟨p, hp, hpk⟩
      rcases List.mem_cons.mp hp with rfl | hp2
      · exact absurd hpk hq
      · exact ih ⟨p, hp2, hpk⟩

theorem assocGet_map_overwrite_ne (m : List (κ × β)) (k k2 : κ) (v : β) (h : k ≠ k2) :
    assocGet (m.map (fun p => if p.1 = k then (k, v) else p)) k2 = assocGet m k2 := by
  induction m with
  | nil => rfl
  | cons q m ih =>
    simp only [List.map_cons]
    by_cases hq : q.1 = k
    · rw [if_pos hq, assocGet_cons, assocGet_cons, if_neg h, if_neg (hq ▸ h)]
      exact ih
    · rw [if_neg hq, assocGet_cons, assocGet_cons]
      by_cases hq2 : q.1 = k2 <;> simp [hq2, ih]

theorem assocGet_append_single_self (m : List (κ × β)) (k : κ) (v : β)
    (h : assocGet m k = none) : assocGet (m ++ [(k, v)]) k = some v := by
  rw [assocGet_eq_none_iff] at h
  induction m with
  | nil => simp [assocGet_cons]
  | cons q m ih =>
    rw [List.cons_append, assocGet_cons, if_neg (h q (List.mem_cons_self q m))]
    exact ih (fun p hp => h p (List.mem_cons_of_mem q hp))

theorem assocGet_append_single_ne (m : List (κ × β)) (k k2 : κ) (v : β) (h : k ≠ k2) :
    assocGet (m ++ [(k, v)]) k2 = assocGet m k2 := by
  induction m with
  | nil => simp [assocGet_cons, assocGet_nil, h]
  | cons q m ih =>
    rw [List.cons_append, assocGet_cons, assocGet_cons]
    by_cases hq : q.1 = k2 <;> simp [hq, ih]

theorem assocAnyOfGetSome (m : List (κ × β)) (k : κ) (v : β)
    (h : assocGet m k = some v) : (m.any fun p => decide (p.1 = k)) = true := by
  rw [List.any_eq_true]
  have hiff := assocGet_isSome_iff m k
  rw [h] at hiff
  obtain ⟨p, hp, hpk⟩ := hiff.mp rfl
  exact ⟨p, hp, by simpa using hpk⟩

theorem assocGet_assocSet_self (m : List (κ × β)) (k : κ) (v : β) :
    assocGet (assocSet m k v) k = some v := by
  unfold assocSet
  split
  · rename_i h
    simp only [List.any_eq_true, decide_eq_true_eq] at h
    exact assocGet_map_overwrite_self m k v h
  · rename_i h
    apply assocGet_append_single_self
    rw [assocGet_eq_none_iff]
    intro p hp hpk
    exact h (List.any_eq_true.mpr ⟨p, hp, by simpa using hpk⟩)

theorem assocGet_assocSet_ne (m : List (κ × β)) (k k2 : κ) (v : β) (h : k ≠ k2) :
    assocGet (assocSet m k v) k2 = assocGet m k2 := by
  unfold assocSet
  split
  · exact assocGet_map_overwrite_ne m k k2 v h
  · exact assocGet_append_single_ne m k k2 v h

theorem assocSet_keys_of_some (m : List (κ × β)) (k : κ) (v v2 : β)
    (h : assocGet m k = some v2) :
    (assocSet m k v).map Prod.fst = m.map Prod.fst := by
  rw [assocSet_any_true m k v (assocAnyOfGetSome m k v2 h)]
  rw [List.map_map]
  apply List.map_congr_left
  intro q hq
  by_cases hqk : q.1 = k <;> simp [hqk]

theorem assocSet_keys_of_none (m : List (κ × β)) (k : κ) (v : β)
    (h : assocGet m k = none) :
    (assocSet m k v).map Prod.fst = m.map Prod.fst ++ [k] := by
  rw [assocSet_of_not_mem m k v h, List.map_append]
  rfl

theorem map_overwrite_noop (m : List (κ × β)) (k : κ) (v : β)
    (hnd : (m.map Prod.fst).Nodup) (h : assocGet m k = some v) :
    m.map (fun p => if p.1 = k then (k, v) else p) = m := by
  induction m with
  | nil => rfl
  | cons q m ih =>
    rw [assocGet_cons] at h
    simp only [List.map_cons, List.nodup_cons] at hnd
    by_cases hq : q.1 = k
    · rw [if_pos hq] at h
      simp only [List.map_cons, if_pos hq]
      have hrest : m.map (fun p => if p.1 = k then (k, v) else p) = m := by
        conv_rhs => rw [← List.map_id m]
        apply List.map_congr_left
        intro p hp
        rw [if_neg, id]
        intro hpk
        apply hnd.1
        rw [hq, ← hpk]
        exact List.mem_map_of_mem Prod.fst hp
      rw [hrest]
      have hqv : q = (k, v) := by
        obtain ⟨q1, q2⟩ := q
        simp only at hq
        simp only [Option.some.injEq] at h
        rw [hq, h]
      rw [hqv]
    · rw [if_neg hq] at h
      simp only [List.map_cons, if_neg hq]
      rw [ih hnd.2 h]

theorem assocSet_same_eq (m : List (κ × β)) (k : κ) (v : β)
    (hnd : (m.map Prod.fst).Nodup) (h : assocGet m k = some v) : assocSet m k v = m := by
  rw [assocSet_any_true m k v (assocAnyOfGetSome m k v h), map_overwrite_noop m k v hnd h]

end AssocLemmas

/-! ### Concrete fixtures used by witnesses and counterexamples -/

/-- A sealed two-column table over trivial records, for witnesses that only exercise the
state machine. -/
def fxMeta : TableMeta Unit Unit :=
  { name := "t1", typeName := "T1",
    columns := [{ name := "c1", isPk := true, insertSpec := fun _ => () },
                { name := "c2", isPk := false, insertSpec := fun _ => () }] }

def fxTable : TableToUse Unit Unit :=
  { uid := 7, sealed := true, meta := fxMeta, name := "t1", tableAlias := "t1" }

def fxCol : ColumnToUse Unit Unit := { name := "c1", isPk := true, table := fxTable }

/-- A sealed two-column table over `Nat` records with distinguishable insert extractors,
for the INSERT rendering witnesses. -/
def fxNMeta : TableMeta Nat Nat :=
  { name := "t", typeName := "TN",
    columns := [{ name := "x", isPk := true, insertSpec := fun v => v },
                { name := "y", isPk := false, insertSpec := fun v => v + 100 }] }

def fxNTable : TableToUse Nat Nat :=
  { uid := 3, sealed := true, meta := fxNMeta, name := "t", tableAlias := "t" }

def fxNColX : ColumnToUse Nat Nat := { name := "x", isPk := true, table := fxNTable }

def fxNColY : ColumnToUse Nat Nat := { name := "y", isPk := false, table := fxNTable }

/-! ### C10 -/

/-- C10: for every builder whose select type is `SELECT EXISTS` or `SELECT COUNT` (as
produced by `SelectExists()` / `SelectCount()`), each of the five calls `Select`,
`OrderBy`, `ThenBy`, `Offset`, `Limit` aborts with an error regardless of the current
`previousAction`; conversely each of those five calls can only succeed on a builder of
SELECT kind and basic select type, so EXISTS/COUNT statements never carry an explicit
column list, ORDER BY, OFFSET, or LIMIT. -/
theorem c10_exists_count_reject_select_order_paging {V A : Type} (b : SqlBuilder V A)
    (cols : List (ColumnToUse V A)) (c c' : ColumnToUse V A) (asc asc' : Bool) (n m : Nat) :
    ((b.selectType = SelectKind.selExists ∨ b.selectType = SelectKind.selCount) →
      isErr (b.selectCols cols) = true ∧
      isErr (b.orderByCall c asc) = true ∧
      isErr (b.thenByCall c' asc') = true ∧
      isErr (b.offsetCall n) = true ∧
      isErr (b.limitCall m) = true) ∧
    (isErr (b.selectCols cols) = false →
      b.kind = BuilderKind.select ∧ b.selectType = SelectKind.basic) ∧
    (isErr (b.orderByCall c asc) = false →
      b.kind = BuilderKind.select ∧ b.selectType = SelectKind.basic) ∧
    (isErr (b.thenByCall c' asc') = false →
      b.kind = BuilderKind.select ∧ b.selectType = SelectKind.basic) ∧
    (isErr (b.offsetCall n) = false →
      b.kind = BuilderKind.select ∧ b.selectType = SelectKind.basic) ∧
    (isErr (b.limitCall m) = false →
      b.kind = BuilderKind.select ∧ b.selectType = SelectKind.basic) := by
  refine ⟨fun h => ⟨?_, ?_, ?_, ?_, ?_⟩, ?_, ?_, ?_, ?_, ?_⟩
  · simp only [SqlBuilder.selectCols]
    split_ifs <;> first | rfl | (rcases h with h | h <;> simp_all)
  · simp only [SqlBuilder.orderByCall]
    split_ifs <;> first | rfl | (rcases h with h | h <;> simp_all)
  · simp only [SqlBuilder.thenByCall]
    split_ifs <;> first | rfl | (rcases h with h | h <;> simp_all)
  · simp only [SqlBuilder.offsetCall]
    split_ifs <;> first | rfl | (rcases h with h | h <;> simp_all)
  · simp only [SqlBuilder.limitCall]
    split_ifs <;> first | rfl | (rcases h with h | h <;> simp_all)
  · intro hok
    simp only [SqlBuilder.selectCols] at hok
    split_ifs at hok <;> simp_all [isErr]
  · intro hok
    simp only [SqlBuilder.orderByCall] at hok
    split_ifs at hok <;> simp_all [isErr]
  · intro hok
    simp only [SqlBuilder.thenByCall] at hok
    split_ifs at hok <;> simp_all [isErr]
  · intro hok
    simp only [SqlBuilder.offsetCall] at hok
    split_ifs at hok <;> simp_all [isErr]
  · intro hok
    simp only [SqlBuilder.limitCall] at hok
    split_ifs at hok <;> simp_all [isErr]

/-- C10 witness: a concrete `SELECT EXISTS` builder rejects `Select` and `Limit`. -/
theorem c10_witness :
    isErr ((({ SqlBuilder.newSqlBuilder with
        kind := BuilderKind.select, selectType := SelectKind.selExists,
        previousAction := PrevAction.isSelect } : SqlBuilder Unit Unit)).selectCols [fxCol])
      = true ∧
    isErr ((({ SqlBuilder.newSqlBuilder with
        kind := BuilderKind.select, selectType := SelectKind.selExists,
        previousAction := PrevAction.isSelect } : SqlBuilder Unit Unit)).limitCall 5)
      = true := by
  have h := c10_exists_count_reject_select_order_paging
    ({ SqlBuilder.newSqlBuilder with
        kind := BuilderKind.select, selectType := SelectKind.selExists,
        previousAction := PrevAction.isSelect } : SqlBuilder Unit Unit)
    [fxCol] fxCol fxCol true false 3 5
  exact ⟨(h.1 (Or.inl rfl)).1, (h.1 (Or.inl rfl)).2.2.2.2⟩

/-! ### C5 -/

/-- Whether a token is one of the runtime types the Go rendering `switch` accepts. -/
def tokSupported {V A : Type} : Token V A → Bool
  | .unsupported => false
  | _ => true

theorem foldlM_render_ok {V A : Type} (f : Token V A → Except String String)
    (g : Token V A → String)
    (hfg : ∀ t, tokSupported t = true → f t = .ok (g t))
    (toks : List (Token V A)) (hc : ∀ t ∈ toks, tokSupported t = true) (acc : String) :
    toks.foldlM (fun acc t => (f t).map (fun s => acc ++ " " ++ s)) acc
      = .ok (acc ++ joinAll (toks.map (fun t => " " ++ g t))) := by
  induction toks generalizing acc with
  | nil => simp [joinAll, exceptPure]
  | cons t ts ih =>
    have hst := hc t (List.mem_cons_self t ts)
    rw [List.foldlM_cons, hfg t hst]
    simp only [exceptMapOk, exceptBindOk]
    rw [ih (fun x hx => hc x (List.mem_cons_of_mem t hx)) (acc ++ " " ++ g t)]
    simp [joinAll, String.append_assoc]

theorem foldlM_render_err {V A : Type} (f : Token V A → Except String String)
    (hf : ∀ t, tokSupported t = false → isErr (f t) = true)
    (toks : List (Token V A)) (hc : ∃ t ∈ toks, tokSupported t = false) (acc : String) :
    isErr (toks.foldlM (fun acc t => (f t).map (fun s => acc ++ " " ++ s)) acc) = true := by
  induction toks generalizing acc with
  | nil => simp at hc
  | cons t ts ih =>
    rw [List.foldlM_cons]
    cases hft : f t with
    | error e => simp [exceptMapErr, exceptBindErr, isErr]
    | ok s =>
      simp only [exceptMapOk, exceptBindOk]
      rcases hc with ⟨t', ht', hsup⟩
      rcases List.mem_cons.mp ht' with rfl | ht''
      · have := hf t' hsup
        rw [hft] at this
        simp [isErr] at this
      · exact ih ⟨t', ht'', hsup⟩ (acc ++ " " ++ s)

/-- C5: a rendered token stream (SELECT's WHERE, ON CONFLICT's DO UPDATE SET, and the
DO UPDATE's WHERE) prints each token preceded by a single space — strings trimmed of
surrounding whitespace and copied verbatim, integers in decimal, booleans as TRUE/FALSE —
aborts on any other token kind, and qualifies column tokens per stream: `alias.name` in
the SELECT WHERE, the bare name in DO UPDATE SET, and `tablename.name` in the
DO UPDATE WHERE. -/
theorem c5_token_stream_rendering {V A : Type} (toks : List (Token V A)) :
    ((∀ t ∈ toks, tokSupported t = true) →
      streamRender renderWhereTokenSelect toks =
        .ok (joinAll (toks.map (fun t => " " ++
          (match t with
           | Token.str s => trimSpace s
           | Token.col c => c.table.tableAlias ++ "." ++ c.name
           | Token.int i => toString i
           | Token.bool v => if v then "TRUE" else "FALSE"
           | Token.unsupported => "")))) ∧
      streamRender renderDoUpdateToken toks =
        .ok (joinAll (toks.map (fun t => " " ++
          (match t with
           | Token.str s => trimSpace s
           | Token.col c => c.name
           | Token.int i => toString i
           | Token.bool v => if v then "TRUE" else "FALSE"
           | Token.unsupported => "")))) ∧
      streamRender renderDoUpdateWhereToken toks =
        .ok (joinAll (toks.map (fun t => " " ++
          (match t with
           | Token.str s => trimSpace s
           | Token.col c => c.table.name ++ "." ++ c.name
           | Token.int i => toString i
           | Token.bool v => if v then "TRUE" else "FALSE"
           | Token.unsupported => ""))))) ∧
    ((∃ t ∈ toks, tokSupported t = false) →
      isErr (streamRender renderWhereTokenSelect toks) = true ∧
      isErr (streamRender renderDoUpdateToken toks) = true ∧
      isErr (streamRender renderDoUpdateWhereToken toks) = true) := by
  constructor
  · intro hc
    refine ⟨?_, ?_, ?_⟩ <;>
      · apply foldlM_render_ok _ _ _ _ hc
        intro t ht
        cases t <;> simp_all [renderWhereTokenSelect, renderDoUpdateToken,
          renderDoUpdateWhereToken, tokSupported, ColumnToUse.nameWithAlias]
  · intro hc
    refine ⟨?_, ?_, ?_⟩ <;>
      · apply foldlM_render_err _ _ _ hc
        intro t ht
        cases t <;> simp_all [renderWhereTokenSelect, renderDoUpdateToken,
          renderDoUpdateWhereToken, tokSupported, isErr]

/-- C5 witness: a concrete stream with all four supported token kinds renders with a
leading space per token and the per-stream column qualification, and a stream containing
an unsupported token aborts. -/
theorem c5_witness :
    streamRender renderWhereTokenSelect
      [Token.str "  a = $1 ", Token.col fxCol, Token.int (-4), Token.bool true]
      = .ok " a = $1 t1.c1 -4 TRUE" ∧
    streamRender renderDoUpdateToken
      [(Token.col fxCol : Token Unit Unit)] = .ok " c1" ∧
    streamRender renderDoUpdateWhereToken
      [(Token.col fxCol : Token Unit Unit)] = .ok " t1.c1" ∧
    isErr (streamRender renderWhereTokenSelect
      [Token.str "x", (Token.unsupported : Token Unit Unit)]) = true := by
  have h1 := (c5_token_stream_rendering
    [Token.str "  a = $1 ", Token.col fxCol, Token.int (-4), Token.bool true]).1
    (by intro t ht; fin_cases ht <;> rfl)
  have h2 := (c5_token_stream_rendering [(Token.col fxCol : Token Unit Unit)]).1
    (by intro t ht; fin_cases ht <;> rfl)
  have h3 := (c5_token_stream_rendering
    [Token.str "x", (Token.unsupported : Token Unit Unit)]).2
    ⟨Token.unsupported, by simp, rfl⟩
  refine ⟨?_, ?_, ?_, h3.1⟩
  · rw [h1.1]
    simp only [Except.ok.injEq]
    decide
  · rw [h2.2.1]
    simp only [Except.ok.injEq]
    decide
  · rw [h2.2.2]
    simp only [Except.ok.injEq]
    decide

/-! ### C7 -/

/-- C7: for a `ScannedRows` positioned on a logical row (a successful `Next` has happened:
`anyNext` is set and `rowIdx` addresses a stored row), calling `Next` while some alias
cell of the current row is unread aborts; calling `Next` with every cell read succeeds,
advancing (and reporting via the returned flag whether a further row exists).  `GetTable`
before the first `Next` always aborts, and a successful `GetTable` on a present alias
returns that cell's record and marks exactly that alias read. -/
theorem c7_scanned_rows_consumption {V : Type} (sr : ScannedRows V)
    (cur : List (String × RowCell V))
    (h1 : sr.anyNext = true) (h2 : sr.rowsOfAliasToRow.get? sr.rowIdx = some cur) :
    ((cur.all fun p => p.2.read) = false → isErr sr.next = true) ∧
    ((cur.all fun p => p.2.read) = true →
      sr.next = .ok ({ sr with rowIdx := sr.rowIdx + 1 },
        decide (sr.rowIdx + 1 < sr.rowsOfAliasToRow.length))) ∧
    (∀ (sr0 : ScannedRows V) (a : String), sr0.anyNext = false →
      isErr (sr0.getTable a) = true) ∧
    (∀ (a : String) (cell : RowCell V), assocGet cur a = some cell →
      sr.getTable a = .ok (cell.value,
        { sr with rowsOfAliasToRow :=
            sr.rowsOfAliasToRow.set sr.rowIdx (ScannedRows.markRead cur a) })) := by
  refine ⟨?_, ?_, ?_, ?_⟩
  · intro hall
    simp only [ScannedRows.next, h1, if_pos, h2]
    simp [hall, Except.bind, isErr]
  · intro hall
    simp only [ScannedRows.next, h1, if_pos, h2]
    simp [hall, Except.bind]
  · intro sr0 a h0
    simp [ScannedRows.getTable, h0, isErr]
  · intro a cell hget
    simp only [ScannedRows.getTable, h1]
    rw [if_neg (by simp), h2]
    simp [hget]

/-- C7 witness: on a one-row `ScannedRows` with a single unread alias, `Next` aborts;
after `GetTable` marks it read, `Next` succeeds and reports exhaustion; and `GetTable`
before any `Next` aborts. -/
theorem c7_witness :
    isErr (ScannedRows.next
      { rowsOfAliasToRow := [[("t1", { value := (), read := false })]],
        rowIdx := 0, anyNext := true }) = true ∧
    (ScannedRows.next
      { rowsOfAliasToRow := [[("t1", { value := (), read := true })]],
        rowIdx := 0, anyNext := true } : Except String (ScannedRows Unit × Bool))
      = .ok ({ rowsOfAliasToRow := [[("t1", { value := (), read := true })]],
               rowIdx := 1, anyNext := true }, false) ∧
    isErr (ScannedRows.getTable
      { rowsOfAliasToRow := [[("t1", { value := (), read := false })]],
        rowIdx := 0, anyNext := false } "t1") = true ∧
    (ScannedRows.getTable
      { rowsOfAliasToRow := [[("t1", { value := (), read := false })]],
        rowIdx := 0, anyNext := true } "t1" : Except String (Unit × ScannedRows Unit))
      = .ok ((), { rowsOfAliasToRow := [[("t1", { value := (), read := true })]],
                   rowIdx := 0, anyNext := true }) := by
  have hu := c7_scanned_rows_consumption
    (V := Unit)
    { rowsOfAliasToRow := [[("t1", { value := (), read := false })]],
      rowIdx := 0, anyNext := true }
    [("t1", { value := (), read := false })] rfl rfl
  have hr := c7_scanned_rows_consumption
    (V := Unit)
    { rowsOfAliasToRow := [[("t1", { value := (), read := true })]],
      rowIdx := 0, anyNext := true }
    [("t1", { value := (), read := true })] rfl rfl
  refine ⟨hu.1 rfl, ?_, ?_, ?_⟩
  · rw [hr.2.1 rfl]
    rfl
  · exact hu.2.2.1
      { rowsOfAliasToRow := [[("t1", { value := (), read := false })]],
        rowIdx := 0, anyNext := false } "t1" rfl
  · rw [hu.2.2.2 "t1" { value := (), read := false } rfl]
    rfl

/-! ### C8 -/

theorem quoted_ne_self (name : String) : "\"" ++ name ++ "\"" ≠ name := by
  intro h
  have := congrArg String.length h
  simp only [String.length_append, show ("\"" : String).length = 1 from rfl] at this
  omega

theorem mem_addSqlKeyword (keyword name : String) (kw : List String) :
    name ∈ addSqlKeyword keyword kw ↔ (name ∈ kw ∨ name = toLowerString keyword) := by
  unfold addSqlKeyword
  by_cases h : toLowerString keyword ∈ kw
  · rw [if_pos h]
    constructor
    · exact Or.inl
    · rintro (hn | rfl)
      · exact hn
      · exact h
  · rw [if_neg h]
    simp [List.mem_append]

theorem foldl_assocSet_not_mem {V A : Type} (cols : List (ColumnMeta V A))
    (m : List (String × ColumnMeta V A)) (k : String)
    (h : k ∉ cols.map (·.name)) :
    assocGet (cols.foldl (fun m c => assocSet m c.name c) m) k = assocGet m k := by
  induction cols generalizing m with
  | nil => rfl
  | cons d ds ih =>
    simp only [List.map_cons, List.mem_cons, not_or] at h
    rw [List.foldl_cons, ih _ h.2, assocGet_assocSet_ne _ _ _ _ (fun hk => h.1 hk.symm)]

theorem columnsByName_get {V A : Type} (cols : List (ColumnMeta V A))
    (hnd : (cols.map (·.name)).Nodup) (c : ColumnMeta V A) (hc : c ∈ cols) :
    assocGet (cols.foldl (fun m c => assocSet m c.name c) []) c.name = some c := by
  suffices h : ∀ (m : List (String × ColumnMeta V A)),
      (cols.map (·.name)).Nodup → c ∈ cols →
      assocGet (cols.foldl (fun m c => assocSet m c.name c) m) c.name = some c by
    exact h [] hnd hc
  clear hnd hc
  induction cols with
  | nil => intro m _ hc; cases hc
  | cons d ds ih =>
    intro m hnd hc
    simp only [List.map_cons, List.nodup_cons] at hnd
    rw [List.foldl_cons]
    rcases List.mem_cons.mp hc with rfl | hc'
    · rw [foldl_assocSet_not_mem ds _ c.name hnd.1]
      exact assocGet_assocSet_self m c.name c
    · exact ih _ hnd.2 hc'

/-- C8 (amended): a column name is double-quoted iff it equals — case-sensitively — a
member of the stored keyword set, where `AddSqlKeyword` stores the *lowercased* form of
its argument (so a keyword added in upper case causes quoting of its lowercase form, and
does not cause quoting of the exact form it was added in); and a column registered under a
(trim-stable) name is still found by `MustGetColumnByName` under the original unquoted
name, returned with its stored quoted name. -/
theorem c8_keyword_quoting_amended {V A : Type} (kw : List String) (keyword name : String)
    (tn nm : String) (cols : List (ColumnMeta V A)) (c : ColumnMeta V A)
    (hnd : ((addColumns kw cols).map (·.name)).Nodup)
    (hc : c ∈ cols) (htrim : trimSpace c.name = c.name) :
    (wrapIfKeyword (addSqlKeyword keyword kw) name = "\"" ++ name ++ "\"" ↔
      (name ∈ kw ∨ name = toLowerString keyword)) ∧
    (name ∉ kw → name ≠ toLowerString keyword →
      wrapIfKeyword (addSqlKeyword keyword kw) name = name) ∧
    ({ name := nm, typeName := tn, columns := addColumns kw cols } :
        TableMeta V A).mustGetColumnByName kw c.name
      = .ok { c with name := wrapIfKeyword kw c.name } := by
  refine ⟨?_, ?_, ?_⟩
  · unfold wrapIfKeyword
    by_cases h : name ∈ addSqlKeyword keyword kw
    · rw [if_pos h]
      simp only [eq_self_iff_true, true_iff]
      exact (mem_addSqlKeyword keyword name kw).mp h
    · rw [if_neg h]
      constructor
      · intro habs
        exact absurd habs.symm (quoted_ne_self name)
      · intro hmem
        exact absurd ((mem_addSqlKeyword keyword name kw).mpr hmem) h
  · intro h1 h2
    unfold wrapIfKeyword
    rw [if_neg]
    intro hmem
    rcases (mem_addSqlKeyword keyword name kw).mp hmem with h | h
    · exact h1 h
    · exact h2 h
  · unfold TableMeta.mustGetColumnByName
    have hmem : ({ c with name := wrapIfKeyword kw c.name } : ColumnMeta V A)
        ∈ addColumns kw cols := by
      unfold addColumns
      rw [← htrim]
      exact List.mem_map_of_mem _ hc
    have hg := columnsByName_get (addColumns kw cols) hnd _ hmem
    unfold TableMeta.columnsByName
    dsimp only at hg ⊢
    rw [hg]

/-- C8 witness: the predefined keyword `count` is quoted at registration and still found
by its original unquoted name; a non-keyword name stays unquoted after adding `FOO`. -/
theorem c8_witness :
    ({ name := "t1", typeName := "T1",
       columns := addColumns initSqlKeywords
         [{ name := "count", isPk := true, insertSpec := fun _ => () }] } :
      TableMeta Unit Unit).mustGetColumnByName initSqlKeywords "count"
      = .ok { name := "\"count\"", isPk := true, insertSpec := fun _ => () } ∧
    wrapIfKeyword (addSqlKeyword "FOO" initSqlKeywords) "bar" = "bar" := by
  have h := c8_keyword_quoting_amended (V := Unit) (A := Unit) initSqlKeywords "FOO" "bar"
    "T1" "t1"
    [{ name := "count", isPk := true, insertSpec := fun _ => () }]
    { name := "count", isPk := true, insertSpec := fun _ => () }
    (by simp [addColumns]) (List.mem_singleton.mpr rfl) rfl
  exact ⟨h.2.2, h.2.1 (by decide) (by decide)⟩

/-- C8 counterexample: after `AddSqlKeyword("FOO")`, the name `foo` — which differs from
the added keyword `FOO` and is in no predefined keyword — is nevertheless quoted, and the
exact name `FOO` is not quoted. -/
theorem c8_counterexample :
    wrapIfKeyword (addSqlKeyword "FOO" initSqlKeywords) "foo" = "\"foo\"" ∧
    "foo" ≠ "FOO" ∧ "foo" ∉ initSqlKeywords ∧
    wrapIfKeyword (addSqlKeyword "FOO" initSqlKeywords) "FOO" = "FOO" := by
  decide

/-! ### C9 -/

/-- `startsWithSeq pat s`: `s` starts with `pat` (character lists). -/
def startsWithSeq : List Char → List Char → Bool
  | [], _ => true
  | _ :: _, [] => false
  | p :: ps, c :: cs => p == c && startsWithSeq ps cs

/-- `containsSeq pat s`: `pat` occurs as a contiguous subsequence of `s`. -/
def containsSeq (pat : List Char) : List Char → Bool
  | [] => startsWithSeq pat []
  | c :: cs => startsWithSeq pat (c :: cs) || containsSeq pat cs

/-- `strContains s pat`: `pat` occurs as a substring of `s`. -/
def strContains (s pat : String) : Bool := containsSeq pat.data s.data

/-- C9 counterexample: a basic SELECT built with `Offset(0)` and `Limit(5)` — both calls
present — renders no `OFFSET` clause at all (the code keys emission on the stored value
being positive, not on the call having happened), contradicting the claim's
`OFFSET 0 LIMIT 5` line. -/
theorem c9_counterexample :
    ((SqlBuilder.selectBuilder [fxCol]).bind (fun b => b.fromTables [fxTable])).bind
      (fun b => (b.offsetCall 0).bind (fun b => (b.limitCall 5).bind
        SqlBuilder.buildSelect))
      = .ok ("SELECT t1.c1\nFROM t1 AS t1\nLIMIT 5\n", ([] : List Unit)) ∧
    strContains "SELECT t1.c1\nFROM t1 AS t1\nLIMIT 5\n" "OFFSET" = false := by
  exact ⟨rfl, by decide⟩

/-- C9 (amended): for a basic SELECT whose `Build` succeeds, the statement ends with the
offset/limit block, and that block is: `OFFSET n LIMIT m` on one line when both stored
values are positive, a lone `OFFSET n` or `LIMIT m` when exactly one is positive, and
absent when both are zero — so a clause is "present" exactly when its value is positive,
and `Offset(0)` / `Limit(0)` emit nothing. -/
theorem c9_offset_limit_emission {V A : Type} (b : SqlBuilder V A) (s : String)
    (args : List A) (hk : b.selectType = SelectKind.basic)
    (h : b.buildSelect = .ok (s, args)) :
    (∃ body, s = body ++ b.offsetLimitSec) ∧
    (0 < b.offset → 0 < b.limit →
      b.offsetLimitSec =
        "OFFSET " ++ toString b.offset ++ " LIMIT " ++ toString b.limit ++ "\n") ∧
    (0 < b.offset → b.limit = 0 →
      b.offsetLimitSec = "OFFSET " ++ toString b.offset ++ "\n") ∧
    (b.offset = 0 → 0 < b.limit →
      b.offsetLimitSec = "LIMIT " ++ toString b.limit ++ "\n") ∧
    (b.offset = 0 → b.limit = 0 → b.offsetLimitSec = "") := by
  refine ⟨?_, ?_, ?_, ?_, ?_⟩
  · unfold SqlBuilder.buildSelect at h
    rw [hk] at h
    by_cases he : b.selectColumns.isEmpty
    · simp only [he, if_pos] at h
      simp [Except.bind] at h
    · simp only [he, Bool.false_eq_true, if_false, Except.bind] at h
      by_cases hf : b.selectFromTable.isEmpty
      · rw [if_pos hf] at h
        cases h
      · rw [if_neg hf] at h
        cases hrw : streamRender renderWhereTokenSelect b.whereTokens with
        | error e => rw [hrw] at h; cases h
        | ok w =>
          rw [hrw] at h
          simp only [show (SelectKind.basic = SelectKind.selExists) = False by simp,
            if_false] at h
          refine ⟨b.selectSec ++ b.fromSec ++ b.joinSec ++
            (if b.whereTokens.isEmpty then "" else "WHERE" ++ w ++ "\n") ++ b.orderSec, ?_⟩
          cases h
          simp [String.append_assoc]
  · intro h1 h2
    unfold SqlBuilder.offsetLimitSec
    rw [if_pos ⟨h1, h2⟩]
  · intro h1 h2
    unfold SqlBuilder.offsetLimitSec
    rw [if_neg (by omega), if_pos h1]
  · intro h1 h2
    unfold SqlBuilder.offsetLimitSec
    rw [if_neg (by omega), if_neg (by omega), if_pos h2]
  · intro h1 h2
    unfold SqlBuilder.offsetLimitSec
    rw [if_neg (by omega), if_neg (by omega), if_neg (by omega)]

/-- C9 witness: with positive stored offset and limit, the single pagination line
`OFFSET 1 LIMIT 2` is emitted. -/
theorem c9_witness :
    ({ SqlBuilder.newSqlBuilder with
        selectType := SelectKind.basic,
        selectColumns := [fxCol], selectFromTable := [fxTable],
        offset := 1, limit := 2 } : SqlBuilder Unit Unit).offsetLimitSec
      = "OFFSET 1 LIMIT 2\n" := by
  have h := c9_offset_limit_emission
    ({ SqlBuilder.newSqlBuilder with
        selectType := SelectKind.basic,
        selectColumns := [fxCol], selectFromTable := [fxTable],
        offset := 1, limit := 2 } : SqlBuilder Unit Unit)
    "SELECT t1.c1\nFROM t1 AS t1\nOFFSET 1 LIMIT 2\n" [] rfl rfl
  exact h.2.1 (by decide) (by decide)

/-! ### C1 -/

/-- One fluent call of the builder API, with its arguments (the 15 methods named by the
state-machine tables; the package-level constructors are separate). -/
inductive FluentCall (V A : Type) : Type
  | selectC (cols : List (ColumnToUse V A))
  | fromC (tables : List (TableToUse V A))
  | joinC (jt : JoinType) (tbl : TableToUse V A) (pairs : List (ColumnToUse V A))
  | whereC (toks : List (Token V A))
  | andC (toks : List (Token V A))
  | orC (toks : List (Token V A))
  | argsC (xs : List A)
  | orderByC (c : ColumnToUse V A) (asc : Bool)
  | thenByC (c : ColumnToUse V A) (asc : Bool)
  | offsetC (n : Nat)
  | limitC (n : Nat)
  | valuesC (tn : V → String) (vs : List V)
  | onConflictC (cols : List (ColumnToUse V A))
  | doUpdateC (toks : List (Token V A))
  | doNothingC

/-- Dispatch a fluent call to the corresponding builder method. -/
def applyCall {V A : Type} (b : SqlBuilder V A) : FluentCall V A →
    Except String (SqlBuilder V A)
  | .selectC cols => b.selectCols cols
  | .fromC tables => b.fromTables tables
  | .joinC jt tbl pairs => b.joinOn jt tbl pairs
  | .whereC toks => b.whereTokensCall toks
  | .andC toks => b.andTokens toks
  | .orC toks => b.orTokens toks
  | .argsC xs => b.argsCall xs
  | .orderByC c asc => b.orderByCall c asc
  | .thenByC c asc => b.thenByCall c asc
  | .offsetC n => b.offsetCall n
  | .limitC n => b.limitCall n
  | .valuesC tn vs => b.valuesCall tn vs
  | .onConflictC cols => b.onConflictCall cols
  | .doUpdateC toks => b.doUpdateCall toks
  | .doNothingC => b.doNothingCall

/-- The allowed-predecessor condition of the §4.2 tables for each call, relative to the
builder's kind ("start" is `nonePrevious`); `And`/`Or` additionally require an existing
token and `DoUpdate` at least one conflict key, as the tables state. -/
def allowedPrev {V A : Type} (b : SqlBuilder V A) : FluentCall V A → Prop
  | .selectC _ => b.previousAction ∈ [PrevAction.nonePrevious, PrevAction.isSelect]
  | .fromC _ => b.previousAction ∈ [PrevAction.isSelect, PrevAction.isSelectFrom]
  | .joinC _ _ _ => b.previousAction ∈ [PrevAction.isSelectFrom, PrevAction.isSelectJoin]
  | .whereC _ =>
    match b.kind with
    | .select => b.previousAction ∈ [PrevAction.isSelectFrom, PrevAction.isSelectJoin,
        PrevAction.isSelectWhere]
    | .insert => b.previousAction ∈ [PrevAction.isInsertIntoOnConflictDoUpdate]
  | .andC _ =>
    match b.kind with
    | .select => b.previousAction = PrevAction.isSelectWhere ∧ b.whereTokens.isEmpty = false
    | .insert => b.previousAction = PrevAction.isInsertIntoOnConflictDoUpdateWhere ∧
        b.insertOnConflictDoUpdateWhereTokens.isEmpty = false
  | .orC _ =>
    match b.kind with
    | .select => b.previousAction = PrevAction.isSelectWhere ∧ b.whereTokens.isEmpty = false
    | .insert => b.previousAction = PrevAction.isInsertIntoOnConflictDoUpdateWhere ∧
        b.insertOnConflictDoUpdateWhereTokens.isEmpty = false
  | .argsC _ => b.previousAction ∈ [PrevAction.isSelectWhere]
  | .orderByC _ _ => b.previousAction ∈ [PrevAction.isSelectFrom, PrevAction.isSelectJoin,
      PrevAction.isSelectWhere, PrevAction.isSelectOrderBy]
  | .thenByC _ _ => b.previousAction ∈ [PrevAction.isSelectOrderBy]
  | .offsetC _ => b.previousAction ∈ [PrevAction.isSelectFrom, PrevAction.isSelectJoin,
      PrevAction.isSelectWhere, PrevAction.isSelectOrderBy, PrevAction.isSelectLimit]
  | .limitC _ => b.previousAction ∈ [PrevAction.isSelectFrom, PrevAction.isSelectJoin,
      PrevAction.isSelectWhere, PrevAction.isSelectOrderBy, PrevAction.isSelectOffset]
  | .valuesC _ _ => b.previousAction ∈ [PrevAction.isInsertInto]
  | .onConflictC _ => b.previousAction ∈ [PrevAction.isInsertIntoValues]
  | .doUpdateC _ => b.previousAction ∈ [PrevAction.isInsertIntoOnConflict,
      PrevAction.isInsertIntoOnConflictDoUpdate] ∧ b.insertOnConflictKeys.isEmpty = false
  | .doNothingC => b.previousAction ∈ [PrevAction.isInsertIntoOnConflict]

/-- C1: every fluent call made while the builder's `previousAction` is outside that call's
allowed-predecessor set (per the §4.2 tables, with the extra "≥ 1 existing token" /
"≥ 1 conflict key" requirements of And/Or/DoUpdate) aborts with an error — no successor
builder state is produced. -/
theorem c1_illegal_call_always_errors {V A : Type} (b : SqlBuilder V A) (c : FluentCall V A)
    (h : ¬ allowedPrev b c) : isErr (applyCall b c) = true := by
  cases c with
  | selectC cols =>
    simp only [allowedPrev, applyCall, SqlBuilder.selectCols] at *
    split_ifs <;> first | rfl | simp_all
  | fromC tables =>
    simp only [allowedPrev, applyCall, SqlBuilder.fromTables] at *
    split_ifs <;> first | rfl | simp_all
  | joinC jt tbl pairs =>
    simp only [allowedPrev, applyCall, SqlBuilder.joinOn] at *
    split_ifs <;> first | rfl | simp_all
  | whereC toks =>
    simp only [allowedPrev, applyCall, SqlBuilder.whereTokensCall] at *
    cases hk : b.kind <;> rw [hk] at h <;> simp only [] <;>
      split_ifs <;> first | rfl | simp_all
  | andC toks =>
    simp only [allowedPrev, applyCall, SqlBuilder.andTokens] at *
    cases hk : b.kind <;> rw [hk] at h <;> simp only [] <;>
      split_ifs <;> first | rfl | simp_all
  | orC toks =>
    simp only [allowedPrev, applyCall, SqlBuilder.orTokens] at *
    cases hk : b.kind <;> rw [hk] at h <;> simp only [] <;>
      split_ifs <;> first | rfl | simp_all
  | argsC xs =>
    simp only [allowedPrev, applyCall, SqlBuilder.argsCall] at *
    split_ifs <;> first | rfl | simp_all
  | orderByC c asc =>
    simp only [allowedPrev, applyCall, SqlBuilder.orderByCall] at *
    split_ifs <;> first | rfl | simp_all
  | thenByC c asc =>
    simp only [allowedPrev, applyCall, SqlBuilder.thenByCall] at *
    split_ifs <;> first | rfl | simp_all
  | offsetC n =>
    simp only [allowedPrev, applyCall, SqlBuilder.offsetCall] at *
    split_ifs <;> first | rfl | simp_all
  | limitC n =>
    simp only [allowedPrev, applyCall, SqlBuilder.limitCall] at *
    split_ifs <;> first | rfl | simp_all
  | valuesC tn vs =>
    simp only [allowedPrev, applyCall, SqlBuilder.valuesCall] at *
    split_ifs <;> first | rfl | simp_all
  | onConflictC cols =>
    simp only [allowedPrev, applyCall, SqlBuilder.onConflictCall] at *
    split_ifs <;> first | rfl | simp_all
  | doUpdateC toks =>
    simp only [allowedPrev, applyCall, SqlBuilder.doUpdateCall] at *
    split_ifs <;> first | rfl | simp_all
  | doNothingC =>
    simp only [allowedPrev, applyCall, SqlBuilder.doNothingCall] at *
    split_ifs <;> first | rfl | simp_all

/-- C1 witness: concrete illegal (state, call) pairs abort — `From` on a fresh builder,
`DoUpdate` right after `OnConflict` with no conflict key, and `And` after `Where` with no
existing token. -/
theorem c1_witness :
    isErr (applyCall (SqlBuilder.newSqlBuilder : SqlBuilder Unit Unit)
      (FluentCall.fromC [fxTable])) = true ∧
    isErr (applyCall ({ SqlBuilder.newSqlBuilder with
        kind := BuilderKind.insert,
        previousAction := PrevAction.isInsertIntoOnConflict } : SqlBuilder Unit Unit)
      (FluentCall.doUpdateC [Token.str "c1 = excluded.c1"])) = true ∧
    isErr (applyCall ({ SqlBuilder.newSqlBuilder with
        kind := BuilderKind.select, selectType := SelectKind.basic,
        previousAction := PrevAction.isSelectWhere } : SqlBuilder Unit Unit)
      (FluentCall.andC [Token.str "x = 1"])) = true := by
  refine ⟨?_, ?_, ?_⟩
  · exact c1_illegal_call_always_errors _ _ (by simp [allowedPrev, SqlBuilder.newSqlBuilder])
  · exact c1_illegal_call_always_errors _ _ (by simp [allowedPrev, SqlBuilder.newSqlBuilder])
  · exact c1_illegal_call_always_errors _ _ (by simp [allowedPrev, SqlBuilder.newSqlBuilder])

/-! ### C2 -/

theorem mapM_ok_length {α β : Type} (f : α → Except String β) (l : List α) (res : List β)
    (h : l.mapM f = .ok res) : res.length = l.length := by
  induction l generalizing res with
  | nil =>
    simp only [List.mapM_nil, exceptPure] at h
    cases h
    rfl
  | cons a l ih =>
    rw [List.mapM_cons] at h
    cases hfa : f a with
    | error e => rw [hfa] at h; simp [exceptBindErr] at h
    | ok b =>
      rw [hfa] at h
      simp only [exceptBindOk] at h
      cases hrest : l.mapM f with
      | error e => rw [hrest] at h; simp [exceptBindErr] at h
      | ok bs =>
        rw [hrest] at h
        simp only [exceptBindOk, exceptPure, Except.ok.injEq] at h
        cases h
        simp [ih bs hrest]

theorem insertArgs_eq_bind {V A : Type} (specs : List (V → A)) (values : List V) :
    insertArgs specs values = values.bind (fun v => specs.map (fun f => f v)) := by
  suffices hgen : ∀ (acc : List A),
      values.foldl (fun acc record => acc ++ specs.map (fun isf => isf record)) acc
        = acc ++ values.bind (fun v => specs.map (fun f => f v)) by
    simpa using hgen []
  induction values with
  | nil => intro acc; simp
  | cons v vs ih =>
    intro acc
    simp only [List.foldl_cons, List.cons_bind, ih, List.append_assoc]

theorem bind_const_length {V A : Type} (specs : List (V → A)) (values : List V) :
    (values.bind (fun v => specs.map (fun f => f v))).length
      = values.length * specs.length := by
  induction values with
  | nil => simp
  | cons v vs ih =>
    simp only [List.cons_bind, List.length_append, List.length_map, List.length_cons, ih]
    ring

theorem bind_const_get {V A : Type} (specs : List (V → A)) (values : List V)
    (r i : Nat) (v : V) (f : V → A)
    (hv : values.get? r = some v) (hf : specs.get? i = some f) :
    (values.bind (fun v => specs.map (fun f => f v))).get? (r * specs.length + i)
      = some (f v) := by
  induction values generalizing r with
  | nil => simp at hv
  | cons w ws ih =>
    have hi : i < specs.length := List.get?_eq_some.mp hf |>.1
    cases r with
    | zero =>
      simp only [List.get?_cons_zero, Option.some.injEq] at hv
      cases hv
      simp only [List.cons_bind, Nat.zero_mul, Nat.zero_add]
      rw [List.get?_append (by simpa using hi)]
      simp only [List.get?_map, hf, Option.map_some']
    | succ r' =>
      simp only [List.get?_cons_succ] at hv
      simp only [List.cons_bind]
      rw [List.get?_append_right (by
        simp only [List.length_map]
        calc specs.length ≤ r' * specs.length + specs.length := by omega
        _ = (r' + 1) * specs.length := by ring
        _ ≤ (r' + 1) * specs.length + i := by omega)]
      have : (r' + 1) * specs.length + i - (specs.map (fun f => f w)).length
          = r' * specs.length + i := by
        simp only [List.length_map]
        have : (r' + 1) * specs.length = r' * specs.length + specs.length := by ring
        omega
      rw [this]
      exact ih r' hv

/-- C2: for an INSERT builder with `n ≥ 1` values and `c ≥ 1` insert columns whose column
lookups and conflict section succeed, `Build` emits for each row `r` (0-indexed) the
placeholder group `($((r*c)+1),...,$((r*c)+c))` in increasing order, separated by commas,
and returns the flattened argument list `values.bind (fun v => specs.map (f ↦ f v))` —
of length exactly `n * c`, whose element at position `r*c + i` (0-indexed `i`) is the
`i`-th insert column's registered extractor applied to the `r`-th value, so extraction
order tracks placeholder order. -/
theorem c2_insert_placeholders_and_args {V A : Type} (kw : List String)
    (b : SqlBuilder V A) (tbl : TableToUse V A) (specs : List (V → A)) (confStr : String)
    (ht : b.insertIntoTable = some tbl)
    (hc : b.insertColumns.isEmpty = false)
    (hv : b.insertValues.isEmpty = false)
    (hs : tbl.meta.insertSpecOfColumns kw (b.insertColumns.map (·.name)) = .ok specs)
    (hcf : b.conflictSec = .ok confStr) :
    b.buildInsert kw = .ok
      ("INSERT INTO " ++ tbl.name ++ " (" ++
         joinSep ", " (b.insertColumns.map (·.name)) ++ ")\nVALUES " ++
         joinSep ","
           ((List.range b.insertValues.length).map (fun r =>
             "(" ++ joinSep ","
               ((List.range b.insertColumns.length).map
                 (fun paramIdx =>
                   "$" ++ toString (r * b.insertColumns.length + paramIdx + 1))) ++ ")")) ++
         confStr,
       b.insertValues.bind (fun v => specs.map (fun f => f v))) ∧
    specs.length = b.insertColumns.length ∧
    (b.insertValues.bind (fun v => specs.map (fun f => f v))).length
      = b.insertValues.length * b.insertColumns.length ∧
    (∀ (r i : Nat) (v : V) (f : V → A),
      b.insertValues.get? r = some v → specs.get? i = some f →
      (b.insertValues.bind (fun v => specs.map (fun f => f v))).get?
        (r * b.insertColumns.length + i) = some (f v)) := by
  have hlen : specs.length = b.insertColumns.length := by
    unfold TableMeta.insertSpecOfColumns at hs
    rw [show (b.insertColumns.map (·.name)).isEmpty = false by
      simpa using hc] at hs
    simp only [Bool.false_eq_true, if_false] at hs
    have := mapM_ok_length _ _ _ hs
    simpa using this
  refine ⟨?_, hlen, ?_, ?_⟩
  · unfold SqlBuilder.buildInsert
    rw [hc, ht, hv]
    simp only [Bool.false_eq_true, if_false]
    rw [hs, hcf]
    rw [← insertArgs_eq_bind]
    unfold valuesPlaceholders
    simp only [writeSep_eq_joinSep]
  · rw [bind_const_length, hlen]
  · intro r i v f hvr hfi
    rw [← hlen]
    exact bind_const_get specs b.insertValues r i v f hvr hfi

/-- C2 witness: two rows and two columns produce placeholders `($1,$2),($3,$4)` and the
four extracted arguments in extraction order. -/
theorem c2_witness :
    ({ SqlBuilder.newSqlBuilder with
        kind := BuilderKind.insert,
        previousAction := PrevAction.isInsertIntoValues,
        insertIntoTable := some fxNTable,
        insertColumns := [fxNColX, fxNColY],
        insertValues := [7, 9] } : SqlBuilder Nat Nat).buildInsert initSqlKeywords
      = .ok ("INSERT INTO t (x, y)\nVALUES ($1,$2),($3,$4)", [7, 107, 9, 109]) := by
  have h := c2_insert_placeholders_and_args initSqlKeywords
    ({ SqlBuilder.newSqlBuilder with
        kind := BuilderKind.insert,
        previousAction := PrevAction.isInsertIntoValues,
        insertIntoTable := some fxNTable,
        insertColumns := [fxNColX, fxNColY],
        insertValues := [7, 9] } : SqlBuilder Nat Nat)
    fxNTable [fun v => v, fun v => v + 100] "" rfl rfl rfl rfl rfl
  rw [h.1]
  rfl

/-! ### C6 -/

theorem tmDupFold_ok {V A : Type} (cols : List (ColumnMeta V A))
    (hd : (cols.map (·.name)).Nodup) : ∃ m, tmDupFold cols = .ok m := by
  suffices hgen : ∀ (m₀ : List (String × ColumnMeta V A)),
      (∀ c ∈ cols, assocGet m₀ c.name = none) → (cols.map (·.name)).Nodup →
      ∃ m, cols.foldlM (fun (m : List (String × ColumnMeta V A)) c =>
        if (assocGet m c.name).isSome then
          Except.error ("column with name " ++ c.name ++ " is already added")
        else .ok (assocSet m c.name c)) m₀ = .ok m by
    exact hgen [] (by intro c _; rfl) hd
  clear hd
  induction cols with
  | nil => intro m₀ _ _; exact ⟨m₀, rfl⟩
  | cons c cs ih =>
    intro m₀ hnone hnd
    simp only [List.map_cons, List.nodup_cons] at hnd
    rw [List.foldlM_cons]
    rw [hnone c (List.mem_cons_self c cs)]
    simp only [Option.isSome_none, Bool.false_eq_true, if_false, exceptBindOk]
    apply ih _ _ hnd.2
    intro c' hc'
    rw [assocGet_assocSet_ne]
    · exact hnone c' (List.mem_cons_of_mem c hc')
    · intro hne
      exact hnd.1 (hne ▸ List.mem_map_of_mem (·.name) hc')

/-- C6 (amended): with the type not yet registered and column names unique, `Build` fails
iff the *sorted list* of primary-key column names differs from the *sorted list* of
keyword-wrapped expected names — i.e. the comparison is by multiset, not by set: any
permutation of either list passes, any difference of underlying sets fails, but an
expected list that repeats a name fails even though the underlying sets are equal. -/
theorem c6_pk_check {V A : Type} (kw registered : List String)
    (typeName tableName : String) (cols : List (ColumnMeta V A)) (expected : List String)
    (hr : typeName ∉ registered) (hd : (cols.map (·.name)).Nodup) :
    isErr (tmBuild kw registered typeName tableName cols expected) = true ↔
      sortStrings (pkColumnsName cols) ≠ sortStrings (wrapManyIfKeyword kw expected) := by
  obtain ⟨m, hm⟩ := tmDupFold_ok cols hd
  unfold tmBuild
  rw [hm]
  simp only [exceptBindOk]
  by_cases hsort : sortStrings (pkColumnsName cols)
      = sortStrings (wrapManyIfKeyword kw expected)
  · rw [if_neg (by simpa using hsort), if_neg (by simpa using hr)]
    simp [isErr, hsort]
  · rw [if_pos (by simpa using hsort)]
    simp [isErr, hsort]

/-- C6 witness: primary-key set `{a, b}` declared as `["b", "a"]` (a permutation) passes,
while declaring `["a"]` (a set difference) fails. -/
theorem c6_witness :
    isErr (tmBuild ([] : List String) [] "T" "t"
      [({ name := "a", isPk := true, insertSpec := fun _ => () } : ColumnMeta Unit Unit),
       { name := "b", isPk := true, insertSpec := fun _ => () }]
      ["b", "a"]) = false ∧
    isErr (tmBuild ([] : List String) [] "T" "t"
      [({ name := "a", isPk := true, insertSpec := fun _ => () } : ColumnMeta Unit Unit),
       { name := "b", isPk := true, insertSpec := fun _ => () }]
      ["a"]) = true := by
  have h1 := c6_pk_check ([] : List String) [] "T" "t"
    [({ name := "a", isPk := true, insertSpec := fun _ => () } : ColumnMeta Unit Unit),
     { name := "b", isPk := true, insertSpec := fun _ => () }]
    ["b", "a"] (by simp) (by simp)
  have h2 := c6_pk_check ([] : List String) [] "T" "t"
    [({ name := "a", isPk := true, insertSpec := fun _ => () } : ColumnMeta Unit Unit),
     { name := "b", isPk := true, insertSpec := fun _ => () }]
    ["a"] (by simp) (by simp)
  constructor
  · cases hb : isErr (tmBuild ([] : List String) [] "T" "t"
        [({ name := "a", isPk := true, insertSpec := fun _ => () } : ColumnMeta Unit Unit),
         { name := "b", isPk := true, insertSpec := fun _ => () }]
        ["b", "a"]) with
    | false => rfl
    | true => exact absurd (h1.mp hb) (by decide)
  · exact h2.mpr (by decide)

/-- C6 counterexample: with primary-key column set `{a}` and expected list `["a", "a"]`
the underlying sets are equal, yet `Build` fails — so "fails iff the sets differ
(order-insensitively)" is false as stated: the code compares sorted lists (multisets). -/
theorem c6_counterexample :
    isErr (tmBuild ([] : List String) [] "T" "t"
      [({ name := "a", isPk := true, insertSpec := fun _ => () } : ColumnMeta Unit Unit)]
      ["a", "a"]) = true ∧
    (["a", "a"].all (fun x => x ∈ ["a"]) = true ∧
     ["a"].all (fun x => x ∈ ["a", "a"]) = true) := by
  exact ⟨rfl, by decide⟩

/-! ### C3 -/

/-- A second sealed table fixture with a distinct uid and alias. -/
def fxTable2 : TableToUse Unit Unit :=
  { uid := 8, sealed := true, meta := fxMeta, name := "t2", tableAlias := "t2" }

/-- A sealed table fixture reusing alias `t1` with a different uid. -/
def fxBadTable : TableToUse Unit Unit :=
  { uid := 99, sealed := true, meta := fxMeta, name := "t9", tableAlias := "t1" }

/-- A builder lifetime viewed through table registration only: fold
`registerUsingTable` over a sequence of tables-in-use, starting from a fresh builder
(every fluent call that touches tables funnels through `registerUsingTable`). -/
def registerSeq {V A : Type} (ts : List (TableToUse V A)) : Except String (SqlBuilder V A) :=
  ts.foldlM SqlBuilder.registerUsingTable SqlBuilder.newSqlBuilder

/-- The alias-map invariant: both maps have duplicate-free key sets, are mutually inverse,
and every `uid → alias` entry comes from one of the registered table instances `ts`. -/
structure RegInv {V A : Type} (ts : List (TableToUse V A)) (b : SqlBuilder V A) : Prop where
  nodup1 : (b.aliasToTableUniqueId.map Prod.fst).Nodup
  nodup2 : (b.tableUniqueIdToAlias.map Prod.fst).Nodup
  inv12 : ∀ a u, assocGet b.aliasToTableUniqueId a = some u →
    assocGet b.tableUniqueIdToAlias u = some a
  inv21 : ∀ u a, assocGet b.tableUniqueIdToAlias u = some a →
    assocGet b.aliasToTableUniqueId a = some u
  prov : ∀ u a, assocGet b.tableUniqueIdToAlias u = some a →
    ∃ t ∈ ts, t.uid = u ∧ t.tableAlias = a

theorem notMemKeys_of_assocGet_none {κ β : Type} [DecidableEq κ]
    (m : List (κ × β)) (k : κ) (h : assocGet m k = none) : k ∉ m.map Prod.fst := by
  rw [assocGet_eq_none_iff] at h
  intro hmem
  obtain ⟨p, hp, hpk⟩ := List.mem_map.mp hmem
  exact h p hp hpk

theorem registerStep_inv {V A : Type} (ts : List (TableToUse V A)) (b b' : SqlBuilder V A)
    (t : TableToUse V A) (ht : t ∈ ts)
    (hfun : ∀ t1 ∈ ts, ∀ t2 ∈ ts, t1.uid = t2.uid → t1.tableAlias = t2.tableAlias)
    (hinv : RegInv ts b) (hok : b.registerUsingTable t = .ok b') : RegInv ts b' := by
  unfold SqlBuilder.registerUsingTable at hok
  by_cases hsl : t.sealed = true
  · rw [show t.mustSealed = Except.ok () by simp [TableToUse.mustSealed, hsl]] at hok
    cases hget : assocGet b.aliasToTableUniqueId t.tableAlias with
    | some byUid =>
      rw [hget] at hok
      simp only at hok
      by_cases hne : byUid ≠ t.uid
      · rw [if_pos hne] at hok
        cases hok
      · rw [if_neg hne] at hok
        push_neg at hne
        subst hne
        have hm2 : assocGet b.tableUniqueIdToAlias t.uid = some t.tableAlias :=
          hinv.inv12 _ _ hget
        have e1 : assocSet b.aliasToTableUniqueId t.tableAlias t.uid
            = b.aliasToTableUniqueId := assocSet_same_eq _ _ _ hinv.nodup1 hget
        have e2 : assocSet b.tableUniqueIdToAlias t.uid t.tableAlias
            = b.tableUniqueIdToAlias := assocSet_same_eq _ _ _ hinv.nodup2 hm2
        rw [e1, e2] at hok
        cases hok
        exact hinv
    | none =>
      rw [hget] at hok
      simp only at hok
      have hm2none : assocGet b.tableUniqueIdToAlias t.uid = none := by
        cases hm2 : assocGet b.tableUniqueIdToAlias t.uid with
        | none => rfl
        | some a2 =>
          obtain ⟨t2, ht2, huid, halias⟩ := hinv.prov _ _ hm2
          have heq : t2.tableAlias = t.tableAlias := hfun t2 ht2 t ht huid
          rw [heq] at halias
          have hcontra := hinv.inv21 _ _ hm2
          rw [← halias, hget] at hcontra
          cases hcontra
      have e1 : assocSet b.aliasToTableUniqueId t.tableAlias t.uid
          = b.aliasToTableUniqueId ++ [(t.tableAlias, t.uid)] :=
        assocSet_of_not_mem _ _ _ hget
      have e2 : assocSet b.tableUniqueIdToAlias t.uid t.tableAlias
          = b.tableUniqueIdToAlias ++ [(t.uid, t.tableAlias)] :=
        assocSet_of_not_mem _ _ _ hm2none
      rw [e1, e2] at hok
      cases hok
      constructor
      · show ((b.aliasToTableUniqueId ++ [(t.tableAlias, t.uid)]).map Prod.fst).Nodup
        rw [List.map_append]
        simp only [List.nodup_append, List.map_cons, List.map_nil]
        refine ⟨hinv.nodup1, List.nodup_singleton _, ?_⟩
        intro a ha hb
        simp only [List.mem_singleton] at hb
        subst hb
        exact notMemKeys_of_assocGet_none _ _ hget ha
      · show ((b.tableUniqueIdToAlias ++ [(t.uid, t.tableAlias)]).map Prod.fst).Nodup
        rw [List.map_append]
        simp only [List.nodup_append, List.map_cons, List.map_nil]
        refine ⟨hinv.nodup2, List.nodup_singleton _, ?_⟩
        intro a ha hb
        simp only [List.mem_singleton] at hb
        subst hb
        exact notMemKeys_of_assocGet_none _ _ hm2none ha
      · intro a0 u0 hget0
        simp only at hget0 ⊢
        by_cases ha0 : t.tableAlias = a0
        · subst ha0
          rw [assocGet_append_single_self _ _ _ hget] at hget0
          cases hget0
          exact assocGet_append_single_self _ _ _ hm2none
        · rw [assocGet_append_single_ne _ _ _ _ ha0] at hget0
          have h12 := hinv.inv12 _ _ hget0
          rw [assocGet_append_single_ne]
          · exact h12
          · intro hu
            rw [← hu, hm2none] at h12
            cases h12
      · intro u0 a0 hget0
        simp only at hget0 ⊢
        by_cases hu0 : t.uid = u0
        · subst hu0
          rw [assocGet_append_single_self _ _ _ hm2none] at hget0
          cases hget0
          exact assocGet_append_single_self _ _ _ hget
        · rw [assocGet_append_single_ne _ _ _ _ hu0] at hget0
          have h21 := hinv.inv21 _ _ hget0
          rw [assocGet_append_single_ne]
          · exact h21
          · intro ha
            rw [← ha, hget] at h21
            cases h21
      · intro u0 a0 hget0
        simp only at hget0
        by_cases hu0 : t.uid = u0
        · subst hu0
          rw [assocGet_append_single_self _ _ _ hm2none] at hget0
          cases hget0
          exact ⟨t, ht, rfl, rfl⟩
        · rw [assocGet_append_single_ne _ _ _ _ hu0] at hget0
          exact hinv.prov _ _ hget0
  · rw [show t.mustSealed = Except.error ("table " ++ t.meta.name ++ " is must be sealed")
      by simp [TableToUse.mustSealed, hsl]] at hok
    cases hok

theorem registerFold_inv {V A : Type} (ts : List (TableToUse V A))
    (hfun : ∀ t1 ∈ ts, ∀ t2 ∈ ts, t1.uid = t2.uid → t1.tableAlias = t2.tableAlias)
    (l : List (TableToUse V A)) (hl : ∀ t ∈ l, t ∈ ts) (b : SqlBuilder V A)
    (hinv : RegInv ts b) (b' : SqlBuilder V A)
    (hok : l.foldlM SqlBuilder.registerUsingTable b = .ok b') : RegInv ts b' := by
  induction l generalizing b with
  | nil =>
    simp only [List.foldlM_nil, exceptPure, Except.ok.injEq] at hok
    cases hok
    exact hinv
  | cons t l ih =>
    rw [List.foldlM_cons] at hok
    cases hstep : b.registerUsingTable t with
    | error e => rw [hstep] at hok; cases hok
    | ok b1 =>
      rw [hstep] at hok
      simp only [exceptBindOk] at hok
      exact ih (fun x hx => hl x (List.mem_cons_of_mem t hx)) b1
        (registerStep_inv ts b b1 t (hl t (List.mem_cons_self t l)) hfun hinv hstep) hok

theorem regInv_empty {V A : Type} (ts : List (TableToUse V A)) :
    RegInv ts (SqlBuilder.newSqlBuilder : SqlBuilder V A) := by
  constructor
  · exact List.nodup_nil
  · exact List.nodup_nil
  · intro a u h; cases h
  · intro u a h; cases h
  · intro u a h; cases h

/-- C3: over any register history of sealed table instances (uid determines alias, since a
uid identifies one instance and a sealed instance's alias cannot change), after every
successful prefix the two alias maps are mutually inverse one-to-one mappings; registering
an alias already bound to a *different* uid always fails; and re-registering an instance
already bound under its alias succeeds and leaves the builder completely unchanged. -/
theorem c3_alias_registration_invariants {V A : Type} (ts : List (TableToUse V A))
    (b : SqlBuilder V A)
    (hfun : ∀ t1 ∈ ts, ∀ t2 ∈ ts, t1.uid = t2.uid → t1.tableAlias = t2.tableAlias)
    (hok : registerSeq ts = .ok b) :
    (∀ a u, assocGet b.aliasToTableUniqueId a = some u ↔
      assocGet b.tableUniqueIdToAlias u = some a) ∧
    (∀ a1 a2 u, assocGet b.aliasToTableUniqueId a1 = some u →
      assocGet b.aliasToTableUniqueId a2 = some u → a1 = a2) ∧
    (∀ u1 u2 a, assocGet b.tableUniqueIdToAlias u1 = some a →
      assocGet b.tableUniqueIdToAlias u2 = some a → u1 = u2) ∧
    (∀ t : TableToUse V A, t.sealed = true →
      (∀ u', assocGet b.aliasToTableUniqueId t.tableAlias = some u' → u' ≠ t.uid →
        isErr (b.registerUsingTable t) = true) ∧
      (assocGet b.aliasToTableUniqueId t.tableAlias = some t.uid →
        b.registerUsingTable t = .ok b)) := by
  have hinv : RegInv ts b :=
    registerFold_inv ts hfun ts (fun t h => h) SqlBuilder.newSqlBuilder
      (regInv_empty ts) b hok
  refine ⟨?_, ?_, ?_, ?_⟩
  · intro a u
    exact ⟨hinv.inv12 a u, hinv.inv21 u a⟩
  · intro a1 a2 u h1 h2
    have e1 := hinv.inv12 _ _ h1
    have e2 := hinv.inv12 _ _ h2
    rw [e1] at e2
    cases e2
    rfl
  · intro u1 u2 a h1 h2
    have e1 := hinv.inv21 _ _ h1
    have e2 := hinv.inv21 _ _ h2
    rw [e1] at e2
    cases e2
    rfl
  · intro t hsl
    constructor
    · intro u' hget hne
      unfold SqlBuilder.registerUsingTable
      rw [show t.mustSealed = Except.ok () by simp [TableToUse.mustSealed, hsl]]
      simp only [hget]
      rw [if_pos (by exact hne)]
      rfl
    · intro hget
      unfold SqlBuilder.registerUsingTable
      rw [show t.mustSealed = Except.ok () by simp [TableToUse.mustSealed, hsl]]
      simp only [hget]
      rw [if_neg (by simp)]
      rw [assocSet_same_eq _ _ _ hinv.nodup1 hget,
        assocSet_same_eq _ _ _ hinv.nodup2 (hinv.inv12 _ _ hget)]

/-- C3 witness: after registering two distinct instances, the maps are inverse,
registering a third instance reusing alias `t1` with a different uid fails, and
re-registering the first instance is a no-op success. -/
theorem c3_witness :
    (assocGet ([("t1", 7), ("t2", 8)] : List (String × Int)) "t1" = some 7 ↔
      assocGet ([((7 : Int), "t1"), (8, "t2")]) 7 = some "t1") ∧
    isErr (({ SqlBuilder.newSqlBuilder with
        aliasToTableUniqueId := [("t1", 7), ("t2", 8)],
        tableUniqueIdToAlias := [(7, "t1"), (8, "t2")] } :
          SqlBuilder Unit Unit).registerUsingTable fxBadTable)
      = true ∧
    ({ SqlBuilder.newSqlBuilder with
        aliasToTableUniqueId := [("t1", 7), ("t2", 8)],
        tableUniqueIdToAlias := [(7, "t1"), (8, "t2")] } :
          SqlBuilder Unit Unit).registerUsingTable fxTable
      = .ok ({ SqlBuilder.newSqlBuilder with
          aliasToTableUniqueId := [("t1", 7), ("t2", 8)],
          tableUniqueIdToAlias := [(7, "t1"), (8, "t2")] } : SqlBuilder Unit Unit) := by
  have h := c3_alias_registration_invariants [fxTable, fxTable2]
    ({ SqlBuilder.newSqlBuilder with
        aliasToTableUniqueId := [("t1", 7), ("t2", 8)],
        tableUniqueIdToAlias := [(7, "t1"), (8, "t2")] } : SqlBuilder Unit Unit)
    (by
      intro t1 h1 t2 h2
      fin_cases h1 <;> fin_cases h2 <;> simp [fxTable, fxTable2])
    rfl
  refine ⟨h.1 "t1" 7, ?_, ?_⟩
  · exact (h.2.2.2 fxBadTable rfl).1 7 rfl (by decide)
  · exact (h.2.2.2 fxTable rfl).2 rfl

/-! ### C4 -/

/-- C4 counterexample: with the duplicated pair `(t, x)` selected twice, the scan layout
leaves the FIRST appearance's slot (index 0) unset (`none`, Go `nil`) and writes both
scan targets to the LAST appearance's index — so the scan-target is not placed at the
index of first appearance as the claim states. -/
theorem c4_counterexample :
    scanLayout [("t", "x"), ("t", "x")]
      = [none, some { tableAlias := "t", name := "x", pos := 1 }] ∧
    (scanLayout [("t", "x"), ("t", "x")]).get? 0 = some none := by
  constructor
  · decide
  · decide

theorem writeCell_length (arr : List (Option ScanTarget)) (w : Option Nat × ScanTarget) :
    (writeCell arr w).length = arr.length := by
  unfold writeCell
  cases w.1 <;> simp

theorem foldWrites_length (ws : List (Option Nat × ScanTarget))
    (arr : List (Option ScanTarget)) :
    (ws.foldl writeCell arr).length = arr.length := by
  induction ws generalizing arr with
  | nil => rfl
  | cons w ws ih => rw [List.foldl_cons, ih, writeCell_length]

theorem getq_set_ne {α : Type} (l : List α) (i j : Nat) (x : α) (h : i ≠ j) :
    (l.set i x).get? j = l.get? j := by
  induction l generalizing i j with
  | nil => simp
  | cons a l ih =>
    match i, j with
    | 0, 0 => exact absurd rfl h
    | 0, j + 1 => rfl
    | i + 1, 0 => rfl
    | i + 1, j + 1 =>
      show (l.set i x).get? j = l.get? j
      exact ih i j (fun he => h (by rw [he]))

theorem getq_set_self {α : Type} (l : List α) (i : Nat) (x : α) (h : i < l.length) :
    (l.set i x).get? i = some x := by
  induction l generalizing i with
  | nil => simp at h
  | cons a l ih =>
    match i with
    | 0 => rfl
    | i + 1 =>
      show (l.set i x).get? i = some x
      exact ih i (by simpa using h)

theorem foldWrites_not_target (ws : List (Option Nat × ScanTarget))
    (arr : List (Option ScanTarget)) (k : Nat)
    (h : ∀ w ∈ ws, w.1 ≠ some k) :
    (ws.foldl writeCell arr).get? k = arr.get? k := by
  induction ws generalizing arr with
  | nil => rfl
  | cons w ws ih =>
    rw [List.foldl_cons, ih _ (fun x hx => h x (List.mem_cons_of_mem w hx))]
    unfold writeCell
    cases hw : w.1 with
    | none => rfl
    | some j =>
      apply getq_set_ne
      intro hjk
      exact h w (List.mem_cons_self w ws) (by rw [hw, hjk])

theorem foldWrites_get (ws : List (Option Nat × ScanTarget))
    (arr : List (Option ScanTarget)) (k : Nat) (v : ScanTarget)
    (hk : k < arr.length)
    (hmem : (some k, v) ∈ ws)
    (huniq : ∀ w ∈ ws, w.1 = some k → w.2 = v) :
    (ws.foldl writeCell arr).get? k = some (some v) := by
  induction ws generalizing arr with
  | nil => cases hmem
  | cons w ws ih =>
    rw [List.foldl_cons]
    by_cases hmem' : (some k, v) ∈ ws
    · exact ih _ (by rw [writeCell_length]; exact hk) hmem'
        (fun x hx => huniq x (List.mem_cons_of_mem w hx))
    · have hw : w = (some k, v) := by
        rcases List.mem_cons.mp hmem with h | h
        · exact h.symm
        · exact absurd h hmem'
      subst hw
      have hnone : ∀ x ∈ ws, x.1 ≠ some k := by
        intro x hx hxk
        have hx2 := huniq x (List.mem_cons_of_mem _ hx) hxk
        apply hmem'
        have hxeq : x = (some k, v) := Prod.ext hxk hx2
        rw [← hxeq]
        exact hx
      rw [foldWrites_not_target ws _ k hnone]
      show ((arr.set k (some v)).get? k) = some (some v)
      exact getq_set_self arr k (some v) hk

/-- The scan-destination writes of one statement, flattened across aliases. -/
def scanWrites (cols : List (String × String)) : List (Option Nat × ScanTarget) :=
  (scanAliases cols).bind (fun a =>
    (scanColumnsByAlias cols a).enum.map (fun p =>
      (assocGet (scanIndexMap cols) (a, p.2),
       ({ tableAlias := a, name := p.2, pos := p.1 } : ScanTarget))))

theorem foldl_writeCell_bind (as : List String)
    (g : String → List (Option Nat × ScanTarget)) (arr : List (Option ScanTarget)) :
    (as.bind g).foldl writeCell arr
      = as.foldl (fun arr a => (g a).foldl writeCell arr) arr := by
  induction as generalizing arr with
  | nil => rfl
  | cons a as ih =>
    show (g a ++ as.bind g).foldl writeCell arr
      = as.foldl (fun arr a => (g a).foldl writeCell arr) ((g a).foldl writeCell arr)
    rw [List.foldl_append, ih]

theorem scanLayout_eq_foldWrites (cols : List (String × String)) :
    scanLayout cols
      = (scanWrites cols).foldl writeCell
          (List.replicate cols.length (none : Option ScanTarget)) := by
  unfold scanLayout scanWrites
  rw [foldl_writeCell_bind]
  simp only [List.foldl_map]

theorem enumFrom_mem_getq {α : Type} (l : List α) (n i : Nat) (x : α)
    (h : (i, x) ∈ l.enumFrom n) : n ≤ i ∧ l.get? (i - n) = some x := by
  induction l generalizing n with
  | nil => cases h
  | cons a l ih =>
    rcases List.mem_cons.mp h with heq | hmem
    · cases heq
      exact ⟨Nat.le_refl _, by simp⟩
    · obtain ⟨hle, hget⟩ := ih (n + 1) hmem
      refine ⟨Nat.le_of_succ_le hle, ?_⟩
      have : i - n = (i - (n + 1)) + 1 := by omega
      rw [this]
      simpa using hget

theorem getq_mem_enumFrom {α : Type} (l : List α) (n i : Nat) (x : α)
    (h : l.get? i = some x) : (n + i, x) ∈ l.enumFrom n := by
  induction l generalizing n i with
  | nil => simp at h
  | cons a l ih =>
    match i with
    | 0 =>
      simp only [List.get?_cons_zero, Option.some.injEq] at h
      cases h
      exact List.mem_cons_self _ _
    | i + 1 =>
      simp only [List.get?_cons_succ] at h
      have := ih (n + 1) i h
      apply List.mem_cons_of_mem
      have harith : n + (i + 1) = (n + 1) + i := by omega
      rw [harith]
      exact this

theorem assocGet_enumFromMap (cols : List (String × String)) (n : Nat)
    (hd : cols.Nodup) (k : Nat) (p : String × String) (hk : cols.get? k = some p) :
    assocGet ((cols.enumFrom n).map (fun q => (q.2, q.1))) p = some (n + k) := by
  induction cols generalizing n k with
  | nil => simp at hk
  | cons c cs ih =>
    simp only [List.nodup_cons] at hd
    show assocGet (((n, c) :: (cs.enumFrom (n + 1))).map (fun q => (q.2, q.1))) p
      = some (n + k)
    rw [List.map_cons, assocGet_cons]
    by_cases hc : c = p
    · subst hc
      rw [if_pos rfl]
      match k, hk with
      | 0, _ => rfl
      | j + 1, hk =>
        simp only [List.get?_cons_succ] at hk
        exact absurd (List.get?_mem hk) hd.1
    · rw [if_neg hc]
      match k, hk with
      | 0, hk =>
        simp only [List.get?_cons_zero, Option.some.injEq] at hk
        exact absurd hk hc
      | j + 1, hk =>
        simp only [List.get?_cons_succ] at hk
        rw [ih (n + 1) hd.2 j hk]
        congr 1
        omega

theorem assocGet_enumFromMap_inv (cols : List (String × String)) (n : Nat)
    (p : String × String) (j : Nat)
    (h : assocGet ((cols.enumFrom n).map (fun q => (q.2, q.1))) p = some j) :
    n ≤ j ∧ cols.get? (j - n) = some p := by
  induction cols generalizing n with
  | nil => cases h
  | cons c cs ih =>
    rw [show (c :: cs).enumFrom n = (n, c) :: cs.enumFrom (n + 1) from rfl,
      List.map_cons, assocGet_cons] at h
    by_cases hc : c = p
    · rw [if_pos hc] at h
      simp only [Option.some.injEq] at h
      subst h
      exact ⟨Nat.le_refl _, by simpa using hc⟩
    · rw [if_neg hc] at h
      obtain ⟨hle, hget⟩ := ih (n + 1) h
      refine ⟨Nat.le_of_succ_le hle, ?_⟩
      have : j - n = (j - (n + 1)) + 1 := by omega
      rw [this]
      simpa using hget

theorem scanIndexMap_get (cols : List (String × String)) (hd : cols.Nodup)
    (k : Nat) (p : String × String) (hk : cols.get? k = some p) :
    assocGet (scanIndexMap cols) p = some k := by
  have hfold : scanIndexMap cols = cols.enum.map (fun q => (q.2, q.1)) := by
    suffices hgen : ∀ (l : List (String × String)) (n : Nat)
        (m₀ : List ((String × String) × Nat)), l.Nodup →
        (∀ q ∈ l, assocGet m₀ q = none) →
        (l.enumFrom n).foldl (fun m q => assocSet m q.2 q.1) m₀
          = m₀ ++ (l.enumFrom n).map (fun q => (q.2, q.1)) by
      have := hgen cols 0 [] hd (fun q _ => rfl)
      simpa [scanIndexMap, List.enum] using this
    intro l
    induction l with
    | nil => intro n m₀ _ _; simp
    | cons c cs ih =>
      intro n m₀ hnd hnone
      simp only [List.nodup_cons] at hnd
      rw [show (c :: cs).enumFrom n = (n, c) :: cs.enumFrom (n + 1) from rfl,
        List.foldl_cons]
      show (cs.enumFrom (n + 1)).foldl (fun m q => assocSet m q.2 q.1) (assocSet m₀ c n)
        = m₀ ++ ((n, c) :: cs.enumFrom (n + 1)).map (fun q => (q.2, q.1))
      rw [assocSet_of_not_mem m₀ c n (hnone c (List.mem_cons_self c cs))]
      rw [ih (n + 1) (m₀ ++ [(c, n)]) hnd.2 (fun q hq => by
        rw [assocGet_append_single_ne]
        · exact hnone q (List.mem_cons_of_mem c hq)
        · intro hcq
          exact hnd.1 (hcq ▸ hq))]
      simp [List.map_cons, List.append_assoc]
  rw [hfold]
  have := assocGet_enumFromMap cols 0 hd k p hk
  rw [show cols.enumFrom 0 = cols.enum from rfl] at this
  simpa using this

theorem scanIndexMap_get_inv (cols : List (String × String)) (hd : cols.Nodup)
    (p : String × String) (j : Nat) (h : assocGet (scanIndexMap cols) p = some j) :
    cols.get? j = some p := by
  have hfold : scanIndexMap cols = cols.enum.map (fun q => (q.2, q.1)) := by
    suffices hgen : ∀ (l : List (String × String)) (n : Nat)
        (m₀ : List ((String × String) × Nat)), l.Nodup →
        (∀ q ∈ l, assocGet m₀ q = none) →
        (l.enumFrom n).foldl (fun m q => assocSet m q.2 q.1) m₀
          = m₀ ++ (l.enumFrom n).map (fun q => (q.2, q.1)) by
      have := hgen cols 0 [] hd (fun q _ => rfl)
      simpa [scanIndexMap, List.enum] using this
    intro l
    induction l with
    | nil => intro n m₀ _ _; simp
    | cons c cs ih =>
      intro n m₀ hnd hnone
      simp only [List.nodup_cons] at hnd
      rw [show (c :: cs).enumFrom n = (n, c) :: cs.enumFrom (n + 1) from rfl,
        List.foldl_cons]
      show (cs.enumFrom (n + 1)).foldl (fun m q => assocSet m q.2 q.1) (assocSet m₀ c n)
        = m₀ ++ ((n, c) :: cs.enumFrom (n + 1)).map (fun q => (q.2, q.1))
      rw [assocSet_of_not_mem m₀ c n (hnone c (List.mem_cons_self c cs))]
      rw [ih (n + 1) (m₀ ++ [(c, n)]) hnd.2 (fun q hq => by
        rw [assocGet_append_single_ne]
        · exact hnone q (List.mem_cons_of_mem c hq)
        · intro hcq
          exact hnd.1 (hcq ▸ hq))]
      simp [List.map_cons, List.append_assoc]
  rw [hfold] at h
  have := assocGet_enumFromMap_inv cols 0 p j
    (by rw [show cols.enumFrom 0 = cols.enum from rfl]; exact h)
  simpa using this.2

theorem filtered_names_nodup (cols : List (String × String)) (hd : cols.Nodup)
    (a : String) : ((cols.filter (fun c => c.1 = a)).map (·.2)).Nodup := by
  apply List.Nodup.map_on
  · intro x hx y hy hxy
    have hxa : x.1 = a := by simpa using (List.mem_filter.mp hx).2
    have hya : y.1 = a := by simpa using (List.mem_filter.mp hy).2
    exact Prod.ext (hxa.trans hya.symm) hxy
  · exact hd.filter _

theorem filter_take_get (cols : List (String × String)) (k : Nat) (a n : String)
    (hk : cols.get? k = some (a, n)) :
    ((cols.filter (fun c => c.1 = a)).map (·.2)).get?
      (((cols.take k).filter (fun c => c.1 = a)).length) = some n := by
  induction cols generalizing k with
  | nil => simp at hk
  | cons c cs ih =>
    match k, hk with
    | 0, hk =>
      simp only [List.get?_cons_zero, Option.some.injEq] at hk
      subst hk
      simp [List.filter_cons]
    | j + 1, hk =>
      simp only [List.get?_cons_succ] at hk
      by_cases hc : c.1 = a
      · simp only [List.take_succ_cons, List.filter_cons, hc, decide_True, if_true,
          List.length_cons, List.map_cons, List.get?_cons_succ]
        exact ih j hk
      · simp only [List.take_succ_cons, List.filter_cons, hc, decide_False,
          Bool.false_eq_true, if_false]
        exact ih j hk

theorem scanAliasesStepMono (cols : List (String × String)) (acc : List String)
    (a : String) (h : a ∈ acc) :
    a ∈ cols.foldl (fun acc c => if c.1 ∈ acc then acc else acc ++ [c.1]) acc := by
  induction cols generalizing acc with
  | nil => exact h
  | cons c cs ih =>
    rw [List.foldl_cons]
    apply ih
    by_cases hc : c.1 ∈ acc
    · rw [if_pos hc]; exact h
    · rw [if_neg hc]; exact List.mem_append_left _ h

theorem mem_scanAliases (cols : List (String × String)) (a n : String)
    (h : (a, n) ∈ cols) : a ∈ scanAliases cols := by
  unfold scanAliases
  suffices hgen : ∀ acc, (a, n) ∈ cols →
      a ∈ cols.foldl (fun acc c => if c.1 ∈ acc then acc else acc ++ [c.1]) acc from
    hgen [] h
  clear h
  induction cols with
  | nil => intro acc hmem; cases hmem
  | cons c cs ih =>
    intro acc hmem
    rw [List.foldl_cons]
    rcases List.mem_cons.mp hmem with heq | hmem'
    · have ha : c.1 = a := by rw [← heq]
      apply scanAliasesStepMono
      by_cases hc : c.1 ∈ acc
      · rw [if_pos hc, ← ha]; exact hc
      · rw [if_neg hc]
        apply List.mem_append_right
        simp [ha]
    · exact ih _ hmem'

/-- C4 (amended): when the select-column list has no duplicated `(alias, column)` pair,
the scan-target of each pair is placed at exactly the index where that pair appears in
the builder's column list — its request-list position within its alias being the count of
earlier same-alias columns — computed from the statement-level index maps alone.  (With a
duplicated pair, the code places every occurrence at the pair's LAST index, leaving the
first occurrence's slot unset: see the counterexample.) -/
theorem c4_scan_layout_first_index (cols : List (String × String))
    (hd : cols.Nodup) (k : Nat) (a n : String) (hk : cols.get? k = some (a, n)) :
    (scanLayout cols).get? k
      = some (some (ScanTarget.mk a n
          (((cols.take k).filter (fun c => c.1 = a)).length))) := by
  rw [scanLayout_eq_foldWrites]
  apply foldWrites_get
  · rw [List.length_replicate]
    exact (List.get?_eq_some.mp hk).1
  · unfold scanWrites
    rw [List.mem_bind]
    refine ⟨a, mem_scanAliases cols a n (List.get?_mem hk), ?_⟩
    rw [List.mem_map]
    refine ⟨(((cols.take k).filter (fun c => c.1 = a)).length, n), ?_, ?_⟩
    · have hget := filter_take_get cols k a n hk
      have hmem := getq_mem_enumFrom
        ((cols.filter (fun c => c.1 = a)).map (·.2)) 0
        (((cols.take k).filter (fun c => c.1 = a)).length) n hget
      simpa [scanColumnsByAlias, List.enum] using hmem
    · simp only
      rw [scanIndexMap_get cols hd k (a, n) hk]
  · intro w hw hwk
    unfold scanWrites at hw
    rw [List.mem_bind] at hw
    obtain ⟨a', ha', hw2⟩ := hw
    rw [List.mem_map] at hw2
    obtain ⟨p, hp, hpe⟩ := hw2
    obtain ⟨i, n'⟩ := p
    rw [← hpe] at hwk ⊢
    simp only at hwk ⊢
    have hcols := scanIndexMap_get_inv cols hd (a', n') k hwk
    rw [hk] at hcols
    have hpair : (a, n) = (a', n') := by
      simpa using hcols
    obtain ⟨rfl, rfl⟩ : a = a' ∧ n = n' := ⟨congrArg Prod.fst hpair, congrArg Prod.snd hpair⟩
    have hpget :
        ((cols.filter (fun c => c.1 = a)).map (·.2)).get? i = some n := by
      have := enumFrom_mem_getq ((cols.filter (fun c => c.1 = a)).map (·.2)) 0 i n
        (by simpa [scanColumnsByAlias, List.enum] using hp)
      simpa using this.2
    have hocc := filter_take_get cols k a n hk
    have hieq : i = ((cols.take k).filter (fun c => c.1 = a)).length := by
      apply List.get?_inj (List.get?_eq_some.mp hpget).1 (filtered_names_nodup cols hd a)
      rw [hpget, hocc]
    rw [hieq]

/-- C4 witness: selecting `(t1,c1), (t2,c2), (t1,c3)` places `t1.c3`'s scan target at
index 2 — the index where the pair appears — with request-list position 1 within alias
`t1`. -/
theorem c4_witness :
    (scanLayout [("t1", "c1"), ("t2", "c2"), ("t1", "c3")]).get? 2
      = some (some { tableAlias := "t1", name := "c3", pos := 1 }) := by
  have h := c4_scan_layout_first_index
    [("t1", "c1"), ("t2", "c2"), ("t1", "c3")] (by decide) 2 "t1" "c3" rfl
  simpa using h

end Sqlb
